import Mathlib

/-!
Shallow embedding of the Q16.16 fixed-point library (howerj/q) in Lean 4.

A C `q_t` is a 32-bit two's-complement signed integer interpreted as
value / 2^16.  We model `q_t` values as `Int` in the range
[-2^31, 2^31 - 1]; every operation that the C code performs on `q_t`
either keeps that range (saturation via `qsat`) or wraps modulo 2^32
(`wrap32`, for the C casts between integer types).  64-bit intermediates
(`ld_t`) are plain `Int` (no C computation here exceeds 64 bits except
where noted, and where the C wraps we wrap explicitly).

C `/` on signed integers truncates toward zero: `Int.tdiv`.
Arithmetic right shift by p (the portable `arshift`/`divn` idiom in the
source, whose own comment states the intent `v / (1l << p)` as floor
division) is `Int.ediv` by `2^p`, which rounds toward -infinity;
`Int.ediv = /` here, with a nonnegative remainder for positive divisors.
-/

/-- Most positive `q_t`/`d_t` value (`DMAX`, `qinfo.max`). -/
def DMAX : Int := 2 ^ 31 - 1

/-- Most negative `q_t`/`d_t` value (`DMIN`, `qinfo.min`). -/
def DMIN : Int := -(2 ^ 31)

/-- Reinterpret an integer as a 32-bit two's-complement signed value
(the effect of a C cast to `q_t`/`d_t` of a wider value, gcc `-fwrapv`
semantics). -/
def wrap32 (x : Int) : Int := (x + 2 ^ 31) % 2 ^ 32 - 2 ^ 31

/-- Reinterpret an integer as a 32-bit unsigned value (a C cast to `u_t`). -/
def toU32 (x : Int) : Int := x % 2 ^ 32

/-- Top 16 bits of the bit pattern: `qhigh(q) = ((u_t)q) >> QBITS`. -/
def qhigh (q : Int) : Int := toU32 q / 65536

/-- Low 16 bits of the bit pattern: `qlow(q) = ((u_t)q) & QMASK`. -/
def qlow (q : Int) : Int := toU32 q % 65536

/-- Build a `q_t` from high and low halves:
`qcons(hi, lo) = (hi << QBITS) | (lo & QMASK)` on `u_t`, reinterpreted
as `q_t`.  The `u_t` left shift keeps only the low 16 bits of `hi`. -/
def qcons (hi lo : Int) : Int := wrap32 ((toU32 hi % 65536) * 65536 + toU32 lo % 65536)

/-- The C macro `QINT(INT) = (q_t)((u_t)(INT) << BITS)` and the function
`qint`: an integer converted to Q16.16. -/
def qint (x : Int) : Int := wrap32 (x * 65536)

/-- Truth of `qisnegative(a)`: bit 15 of `qhigh a` (the sign bit of the
32-bit pattern) is set. -/
def qisnegativeB (a : Int) : Bool := 32768 ≤ qhigh a

/-- Truth of `qisinteger(a)`: the fractional bits are all zero. -/
def qisintegerB (a : Int) : Bool := qlow a = 0

/-- Truth of `qisodd(a)`: an integer whose integer part has bit 0 set. -/
def qisoddB (a : Int) : Bool := qisintegerB a && qhigh a % 2 = 1

/-- Truth of `qiseven(a)`. -/
def qisevenB (a : Int) : Bool := qisintegerB a && qhigh a % 2 = 0

/-- The `qisnegative` entry point returns `QINT(BOOLIFY(...))`. -/
def qisnegative (a : Int) : Int := qint (if qisnegativeB a then 1 else 0)

/-- The `qispositive` entry point (clear sign bit). -/
def qispositive (a : Int) : Int := qint (if qisnegativeB a then 0 else 1)

/-- The `qisinteger` entry point. -/
def qisinteger (a : Int) : Int := qint (if qisintegerB a then 1 else 0)

/-- The `qisodd` entry point. -/
def qisodd (a : Int) : Int := qint (if qisoddB a then 1 else 0)

/-- The `qiseven` entry point. -/
def qiseven (a : Int) : Int := qint (if qisevenB a then 1 else 0)

/-- Comparison `qless` returns `QINT(a < b)` (signed 32-bit compare). -/
def qless (a b : Int) : Int := qint (if a < b then 1 else 0)

/-- Comparison `qeqless`. -/
def qeqless (a b : Int) : Int := qint (if a ≤ b then 1 else 0)

/-- Comparison `qmore`. -/
def qmore (a b : Int) : Int := qint (if b < a then 1 else 0)

/-- Comparison `qeqmore`. -/
def qeqmore (a b : Int) : Int := qint (if b ≤ a then 1 else 0)

/-- Comparison `qequal`. -/
def qequal (a b : Int) : Int := qint (if a = b then 1 else 0)

/-- Comparison `qunequal`. -/
def qunequal (a b : Int) : Int := qint (if a = b then 0 else 1)

/-- Negation `qnegate(a) = (~(u_t)a) + 1` : two's-complement negation,
i.e. `-a` reduced into 32 bits.  No saturation. -/
def qnegate (a : Int) : Int := wrap32 (-a)

/-- Minimum: `qless(a, b) ? a : b`. -/
def qmin (a b : Int) : Int := if a < b then a else b

/-- Maximum: `qmore(a, b) ? a : b`. -/
def qmax (a b : Int) : Int := if b < a then a else b

/-- Absolute value: `qisnegative(a) ? qnegate(a) : a`. -/
def qabs (a : Int) : Int := if qisnegativeB a then qnegate a else a

/-- Default overflow handler `qbound_saturate` (only called when the
64-bit intermediate is out of the 32-bit range). -/
def qbound_saturate (s : Int) : Int := if DMAX < s then DMAX else DMIN

/-- Wrapping overflow handler `qbound_wrap`. -/
def qbound_wrap (s : Int) : Int :=
  if DMAX < s then DMIN + s % DMAX else DMAX - (-s) % DMAX

/-- Overflow policy application `qsat`: the global configuration
`qconf.bound` defaults to `qbound_saturate` and nothing modelled here
ever rewrites it, so `qsat` is specialised to the saturating policy. -/
def qsat (s : Int) : Int := if DMAX < s ∨ s < DMIN then qbound_saturate s else s

/-- Addition `qadd(a, b) = qsat((ld_t)a + (ld_t)b)`. -/
def qadd (a b : Int) : Int := qsat (a + b)

/-- Subtraction `qsub(a, b) = qsat((ld_t)a - (ld_t)b)`. -/
def qsub (a b : Int) : Int := qsat (a - b)

/-- Copy sign: `qisnegative(b) ? qnegate(qabs(a)) : qabs(a)`. -/
def qcopysign (a b : Int) : Int :=
  if qisnegativeB b then qnegate (qabs a) else qabs a

/-- Sign: `qisnegative(a) ? -QINT(1) : QINT(1)`. -/
def qsign (a : Int) : Int := if qisnegativeB a then -65536 else 65536

/-- Signum: `a ? qsign(a) : QINT(0)`. -/
def qsignum (a : Int) : Int := if a = 0 then 0 else qsign a

/-- Floor: `q & ~QMASK` clears the low 16 bits of the two's-complement
pattern, i.e. rounds to the next lower multiple of 2^16. -/
def qfloor (q : Int) : Int := q - q % 65536

/-- Ceiling: add one (saturating) unless already an integer, then clear
the fractional bits. -/
def qceil (q : Int) : Int :=
  let adj : Int := if qisintegerB q then 0 else 65536
  let q1 := qadd q adj
  q1 - q1 % 65536

/-- Truncation toward zero: adjust negative non-integers up by one, then
clear the fractional bits. -/
def qtrunc (q : Int) : Int :=
  let adj : Int := if qisnegativeB q && !(qlow q = 0) then 65536 else 0
  let q1 := qadd q adj
  q1 - q1 % 65536

/-- Rounding, half away from zero: on the absolute value, add one when
the top fractional bit (`qlow(q) & QHIGH`) is set, clear the fractional
bits, then restore the sign. -/
def qround (q : Int) : Int :=
  let neg := qisnegativeB q
  let q1 := qabs q
  let adj : Int := if 32768 ≤ qlow q1 then 65536 else 0
  let q2 := qadd q1 adj
  let q3 := q2 - q2 % 65536
  if neg then qnegate q3 else q3

/-- The widening multiply helper: `((ld_t)a * (ld_t)b + QHIGH) >> QBITS`
with an arithmetic (sign-preserving, i.e. flooring) shift. -/
def multiply (a b : Int) : Int := (a * b + 32768) / 65536

/-- Multiplication `qmul = qsat(multiply(a, b))`. -/
def qmul (a b : Int) : Int := qsat (multiply a b)

/-- Fused multiply-add `qfma = qsat(multiply(a, b) + c)`. -/
def qfma (a b c : Int) : Int := qsat (multiply a b + c)

/-- Arithmetic shift right by `p` of a 32-bit value; the C `divn`
(and `arshift`) build this from unsigned shifts, the source comment
giving the intent `v / (1l << p)` as a flooring division. -/
def divn (v : Int) (p : Nat) : Int := v / 2 ^ p

/-- The 64-bit quotient computed inside `qdiv` before it is returned
(and hence truncated) as a 32-bit `q_t`: numerator `(ld_t)a << 16`
plus a rounding bias of half the divisor taken in the direction of the
quotient's sign, then C (truncating) division by `b`. -/
def qdivRaw (a b : Int) : Int :=
  let dd := a * 65536
  let bd2 := divn b 1
  let bd2 := if ¬((0 ≤ dd ∧ 0 < b) ∨ (dd < 0 ∧ b < 0)) then -bd2 else bd2
  (dd + bd2).tdiv b

/-- Division `qdiv` (caller must have `b ≠ 0`; overflow of the quotient
is not checked by the C code, the `int64 -> int32` conversion wraps). -/
def qdiv (a b : Int) : Int := wrap32 (qdivRaw a b)

/-- Remainder `qrem(a, b) = qsub(a, qmul(qtrunc(qdiv(a, b)), b))`. -/
def qrem (a b : Int) : Int := qsub a (qmul (qtrunc (qdiv a b)) b)

/-- Modulo `qmod(a, b) = qsub(a, qmul(qfloor(qdiv(a, b)), b))`. -/
def qmod (a b : Int) : Int := qsub a (qmul (qfloor (qdiv a b)) b)

/-- Serialisation `qpack`: with a buffer shorter than 4 bytes fail with
-1 (and write nothing), otherwise write the four bytes of the value
least-significant first (`b[i] = qn; qn = (u_t)qn >> CHAR_BIT`) and
return 4.  The written bytes are returned as a list. -/
def qpack (q : Int) (length : Nat) : Int × List Int :=
  if length < 4 then (-1, [])
  else
    let u := toU32 q
    (4, [u % 256, u / 256 % 256, u / 65536 % 256, u / 16777216 % 256])

/-- Deserialisation `qunpack`: with a buffer shorter than 4 bytes fail
with -1 leaving the output `*q` (modelled as `qold`) untouched,
otherwise rebuild the value from the four bytes, least-significant
first, and reinterpret the 32-bit pattern as signed. -/
def qunpack (qold : Int) (buffer : List Int) (length : Nat) : Int × Int :=
  if length < 4 then (-1, qold)
  else
    let b0 := buffer.getD 0 0
    let b1 := buffer.getD 1 0
    let b2 := buffer.getD 2 0
    let b3 := buffer.getD 3 0
    (4, wrap32 (((b3 * 256 + b2) * 256 + b1) * 256 + b0))

/-- ASCII `tolower` (the C library call, in the C locale). -/
def tolowerC (c : Char) : Char :=
  if 65 ≤ c.toNat ∧ c.toNat ≤ 90 then Char.ofNat (c.toNat + 32) else c

/-- Digit extraction `extract(c, radix)`: map `0..9a..z` (after
lowering) to its value, `-1` if not a digit or not below the radix. -/
def extract (c : Char) (radix : Int) : Int :=
  let n : Int := (tolowerC c).toNat
  let v : Int :=
    if 48 ≤ n ∧ n ≤ 57 then n - 48
    else if 97 ≤ n ∧ n ≤ 122 then n - 87
    else -1
  if 0 ≤ v ∧ v < radix then v else -1

/-- Constructor `qmk(integer, fractional)` (sign-symmetric `qcons`). -/
def qmk (integer fractional : Int) : Int :=
  if integer < 0 then qnegate (qcons (-integer) fractional)
  else qcons integer fractional

/-- Structural worker for `integer_logarithm`; the fuel argument is an
upper bound on the iteration count (the value itself suffices, since
each division by a base of at least 2 at least halves the value). -/
def integer_logarithm_go (fuel num base : Nat) : Nat :=
  match fuel with
  | 0 => 0
  | fuel + 1 =>
    if num < base ∨ base ≤ 1 then 0
    else 1 + integer_logarithm_go fuel (num / base) base

/-- The helper `integer_logarithm(num, base)`: how often `num` can be
divided by `base` before the quotient reaches zero, minus one
(`r = -1; do r++; while (num /= base);`). -/
def integer_logarithm (num base : Nat) : Nat := integer_logarithm_go num num base

/-- Integer-part scan of `qnconvbdp`: consume digits of `base`,
accumulating into `hi`; once `hi` exceeds `MULTIPLIER = INT16_MAX`
a further digit only sets the overflow flag.  Stops at the first
non-digit or embedded NUL.  Returns `(hi, overflow, rest)`. -/
def scanInt (s : List Char) (base : Int) (hi : Int) (overflow : Bool) :
    Int × Bool × List Char :=
  match s with
  | [] => (hi, overflow, [])
  | c :: rest =>
    if c.toNat = 0 then (hi, overflow, c :: rest)
    else
      let e := extract c base
      if e < 0 then (hi, overflow, c :: rest)
      else if 32767 < hi then scanInt rest base hi true
      else scanInt rest base (hi * base + e) overflow

/-- Fractional-part scan of `qnconvbdp`: consume digits after the `.`,
accumulating numerator `lo` and denominator `places` for the first
`maxdp` digits; a non-digit yields error -3, a `places` overflow
error -4.  Stops at list end or embedded NUL. -/
def scanFrac (s : List Char) (base : Int) (maxdp : Nat) (dp : Nat)
    (lo places : Int) : Except Int (Int × Int) :=
  match s with
  | [] => .ok (lo, places)
  | c :: rest =>
    if c.toNat = 0 then .ok (lo, places)
    else
      let ch := extract c base
      if ch < 0 then .error (-3)
      else if dp < maxdp then
        if DMAX / base ≤ places then .error (-4)
        else scanFrac rest base maxdp (dp + 1) (lo * base + ch) (places * base)
      else scanFrac rest base maxdp (dp + 1) lo places

/-- Final assembly of `qnconvbdp` (the code after the `done:` label):
overflow saturates `*q` to `qinfo.min`/`qinfo.max` by sign and reports
-6, otherwise the value is `qmk(hi, lo)` with the sign applied. -/
def qconvDone (negative : Bool) (overflow : Bool) (hi lo : Int) : Int × Int :=
  if overflow then (-6, if negative then DMIN else DMAX)
  else
    let nq := qmk hi lo
    (0, if negative then qnegate nq else nq)

/-- Text to Q conversion `qnconvbdp(q, s, length, base, idp)`, returning
(error code, value stored in `*q`).  `*q` is set to 0 on entry, so the
early error returns leave it 0.  The input is the first `length`
characters of the C string; `idp` is the (unsigned) fractional digit
limit. -/
def qnconvbdp (s : List Char) (base : Int) (idp : Nat) : Int × Int :=
  if s.length < 1 then (-1, 0)
  else
    let negative := s.headD ' ' = '-'
    if negative ∧ s.length < 2 then (-1, 0)
    else
      let s1 := if negative then s.tail else s
      let (hi, overflow, s2) := scanInt s1 base 0 false
      match s2 with
      | [] => qconvDone negative overflow hi 0
      | c :: rest =>
        if c.toNat = 0 then qconvDone negative overflow hi 0
        else if ¬(c = '.') then (-2, 0)
        else
          let ilog := integer_logarithm 65536 base.toNat
          let maxdp := min idp ilog
          match scanFrac rest base maxdp 0 0 1 with
          | .error e => (e, 0)
          | .ok (lo, places) =>
            if places = 0 then (-5, 0)
            else
              let lo1 := (wrap32 (lo * 65536)).tdiv places
              qconvDone negative overflow hi lo1

/-- Whether the text left after the integer digits is well formed for
`qnconvbdp` (mirrors its own branch structure): either nothing remains, or a
NUL terminator, or a decimal point followed by a fractional part that
`scanFrac` accepts.  Exactly in these cases the conversion reaches the `done`
label where the overflow flag is inspected. -/
def qnconvTailOk (s2 : List Char) (base : Int) (idp : Nat) : Bool :=
  match s2 with
  | [] => true
  | c :: rest =>
    if c.toNat = 0 then true
    else if ¬(c = '.') then false
    else
      match scanFrac rest base (min idp (integer_logarithm 65536 base.toNat)) 0 0 1 with
      | .error _ => false
      | .ok _ => true

/-- Wrapper `qnconvb` (uses the default configuration `qconf.dp = 4`). -/
def qnconvb (s : List Char) (base : Int) : Int × Int := qnconvbdp s base 4

/-- Wrapper `qnconv`/`qconv` (default configuration base 10). -/
def qconv (s : List Char) : Int × Int := qnconvb s 10

/-- The expression evaluator's `numberify`: convert, ignoring errors. -/
def numberify (s : List Char) : Int := (qconv s).2

/-- CORDIC mode (`cordic_mode_e`). -/
inductive CordicMode where
  | vector
  | rotate
deriving DecidableEq

/-- CORDIC coordinate system (`cordic_coordinates_e`). -/
inductive CordicCoord where
  | hyperbolic
  | linear
  | circular
deriving DecidableEq

/-- Inverse of the circular CORDIC gain, Q16.16 (0x9B74). -/
def cordic_circular_inverse_scaling : Int := 0x9B74

/-- Inverse of the hyperbolic CORDIC gain, Q16.16 (0x13520). -/
def cordic_hyperbolic_inverse_scaling : Int := 0x13520

/-- Lookup table `arctans`: `atan(2^0), atan(2^-1), ...` at Q16.16. -/
def arctans : List Int :=
  [0xC90F, 0x76B1, 0x3EB6, 0x1FD5,
   0x0FFA, 0x07FF, 0x03FF, 0x01FF,
   0x00FF, 0x007F, 0x003F, 0x001F,
   0x000F, 0x0007, 0x0003, 0x0001,
   0x0000]

/-- Lookup table `arctanhs`: `atanh(2^-1), atanh(2^-2), ...` at Q16.16. -/
def arctanhs : List Int :=
  [0x8c9f, 0x4162, 0x202b, 0x1005,
   0x0800, 0x0400, 0x0200, 0x0100,
   0x0080, 0x0040, 0x0020, 0x0010,
   0x0008, 0x0004, 0x0002, 0x0001,
   0x0000]

/-- Lookup table `halfs`: `2^0, 2^-1, 2^-2, ...` at Q16.16. -/
def halfs : List Int :=
  [0x10000,
   0x8000, 0x4000, 0x2000, 0x1000,
   0x0800, 0x0400, 0x0200, 0x0100,
   0x0080, 0x0040, 0x0020, 0x0010,
   0x0008, 0x0004, 0x0002, 0x0001]

/-- Conditional two's-complement negation, the C idiom `(v ^ d) - d`
for `d` either `0` (keep) or `-1` (negate); reduced into 32 bits. -/
def xorsub (v d : Int) : Int := if d = 0 then v else wrap32 (-v)

/-- One body execution of the CORDIC loop (the code under the `again:`
label).  `i` is the shift for x and y (for the linear system the
x-shift is disabled and the y-shift is the loop counter `j`), `j`
indexes the lookup table.  All 32-bit arithmetic wraps. -/
def cordicStep (coord : CordicCoord) (mode : CordicMode) (lookup : List Int)
    (i j : Nat) (x y z : Int) : Int × Int × Int :=
  let m := if mode = .rotate then z else wrap32 (-y)
  let d : Int := if m < 0 then -1 else 0
  let xs := xorsub (if coord = .linear then 0 else divn y i) d
  let ys := xorsub (divn x (if coord = .linear then j else i)) d
  let xn := wrap32 (x - (if coord = .hyperbolic then wrap32 (-xs) else xs))
  let yn := wrap32 (y + ys)
  let zn := wrap32 (z - xorsub (lookup.getD j 0) d)
  (xn, yn, zn)

/-- The CORDIC iteration loop: `n` remaining iterations (the loop
counter `j` runs up to the clamped iteration count).  In the
hyperbolic system every fourth body execution is repeated once
(`if (k++ >= 3) { k = 0; goto again; }`, after which the repeated
check leaves `k = 1`). -/
def cordicLoop (coord : CordicCoord) (mode : CordicMode) (lookup : List Int)
    (n : Nat) (i j k : Nat) (x y z : Int) : Int × Int × Int :=
  match n with
  | 0 => (x, y, z)
  | n + 1 =>
    let (x1, y1, z1) := cordicStep coord mode lookup i j x y z
    if coord = .hyperbolic then
      if 3 ≤ k then
        let (x2, y2, z2) := cordicStep coord mode lookup i j x1 y1 z1
        cordicLoop coord mode lookup n (i + 1) (j + 1) 1 x2 y2 z2
      else cordicLoop coord mode lookup n (i + 1) (j + 1) (k + 1) x1 y1 z1
    else cordicLoop coord mode lookup n (i + 1) (j + 1) k x1 y1 z1

/-- The universal CORDIC routine.  Returns the actually performed
(clamped) iteration count together with the final x, y, z (which the C
code writes back through its pointer arguments).  A negative requested
iteration count selects the full table. -/
def cordic (coord : CordicCoord) (mode : CordicMode) (iterations : Int)
    (x y z : Int) : Int × (Int × Int × Int) :=
  let lookup := match coord with
    | .circular => arctans
    | .hyperbolic => arctanhs
    | .linear => halfs
  let length : Int := lookup.length
  let i0 : Nat := match coord with
    | .circular => 0
    | .hyperbolic => 1
    | .linear => 1
  let its := if length < iterations then length else iterations
  let its := if its < 0 then length else its
  (its, cordicLoop coord mode lookup its.toNat i0 0 0 x y z)

/-- The constant `QPI = QMK(0x3, 0x243F, 16)`. -/
def QPI : Int := 0x3243F

/-- The constant `qinfo.ln2 = QMK(0x0, 0xB172, 16)`. -/
def qinfo_ln2 : Int := 0xB172

/-- The constant `qinfo.sqrt2 = QMK(0x1, 0x6A09, 16)`. -/
def qinfo_sqrt2 : Int := 0x16A09

/-- Range-reduction loop `while (qless(theta, npi)) theta = qadd(theta, dpi)`. -/
def thetaUp (theta : Int) : Int :=
  if theta < -QPI then thetaUp (qadd theta (2 * QPI)) else theta
termination_by (-QPI - theta).toNat
decreasing_by
  simp only [qadd, qsat, qbound_saturate, DMAX, DMIN, QPI] at *
  split at * <;> omega

/-- Range-reduction loop `while (qmore(theta, pi)) theta = qadd(theta, dnpi)`. -/
def thetaDown (theta : Int) : Int :=
  if QPI < theta then thetaDown (qadd theta (-(2 * QPI))) else theta
termination_by (theta - QPI).toNat
decreasing_by
  simp only [qadd, qsat, qbound_saturate, DMAX, DMIN, QPI] at *
  split at * <;> omega

/-- The sine/cosine CORDIC driver `qcordic(theta, iterations, &sine,
&cosine)`: reduce theta to [-pi/4, pi/4] recording a negate flag and a
shift, run circular-rotation CORDIC from
(1/circular-gain, 0, theta), then undo shift and negation.
Returns (status, sine, cosine). -/
def qcordicSC (theta : Int) (iterations : Int) : Int × Int × Int :=
  let theta := thetaDown (thetaUp theta)
  let negate1 := theta < -(QPI / 2)
  let theta := if negate1 then qadd theta QPI else theta
  let negate2 := ¬negate1 ∧ QPI / 2 < theta
  let theta := if negate2 then qadd theta (-QPI) else theta
  let negate := negate1 ∨ negate2
  let shift : Int :=
    if theta < -(QPI / 4) then -1 else if QPI / 4 < theta then 1 else 0
  let theta := if shift = -1 then qadd theta (QPI / 2)
    else if shift = 1 then qadd theta (-(QPI / 2)) else theta
  let (_, x, y, z) := cordic .circular .rotate iterations
    cordic_circular_inverse_scaling 0 theta
  let _ := z
  let (x, y) :=
    if 0 < shift then (wrap32 (-y), x)
    else if shift < 0 then (y, wrap32 (-x))
    else (x, y)
  let (x, y) := if negate then (wrap32 (-x), wrap32 (-y)) else (x, y)
  (0, y, x)

/-- Sine and cosine `qsincos` (full iteration count). -/
def qsincos (theta : Int) : Int × Int :=
  let (_, s, c) := qcordicSC theta (-1)
  (s, c)

/-- Sine `qsin`. -/
def qsin (theta : Int) : Int := (qsincos theta).1

/-- Cosine `qcos`. -/
def qcos (theta : Int) : Int := (qsincos theta).2

/-- Tangent `qtan = qdiv(sine, cosine)` (division by a zero cosine is a
failed assertion in the C code; the embedding is the release build's
arithmetic). -/
def qtan (theta : Int) : Int :=
  let (s, c) := qsincos theta
  qdiv s c

/-- Cotangent `qcot`. -/
def qcot (theta : Int) : Int :=
  let (s, c) := qsincos theta
  qdiv c s

/-- Arctangent `qatan(t)`: circular vectoring from (1, t, 0). -/
def qatan (t : Int) : Int :=
  let (_, _, _, z) := cordic .circular .vector (-1) (qint 1) t 0
  z

/-- Quadrant-aware arctangent `qatan2(a, b)` (the `b = 0, a = 0` case is
an assertion failure in debug builds; the embedding follows the release
build, which falls through to `-(QPI/2)`). -/
def qatan2 (a b : Int) : Int :=
  if b = 0 then (if 0 < a then QPI / 2 else -(QPI / 2))
  else if b < 0 then
    (if 0 ≤ a then qadd (qatan (qdiv a b)) QPI else qsub (qatan (qdiv a b)) QPI)
  else
    let (_, _, _, z) := cordic .circular .vector (-1) b a 0
    z

/-- Linear-mode CORDIC multiply `qcordic_mul`. -/
def qcordic_mul (a b : Int) : Int :=
  let (_, _, y, _) := cordic .linear .rotate (-1) a 0 b
  y

/-- Linear-mode CORDIC divide `qcordic_div`. -/
def qcordic_div (a b : Int) : Int :=
  let (_, _, _, z) := cordic .linear .vector (-1) b a 0
  z

/-- Hyperbolic sine and cosine `qsincosh(a)`: hyperbolic rotation from
(1/hyperbolic-gain, 0, a); returns (sinh, cosh). -/
def qsincosh (a : Int) : Int × Int :=
  let (_, x, y, _) := cordic .hyperbolic .rotate (-1)
    cordic_hyperbolic_inverse_scaling 0 a
  (y, x)

/-- Hyperbolic tangent `qtanh`. -/
def qtanh (a : Int) : Int :=
  let (s, c) := qsincosh a
  qdiv s c

/-- Hyperbolic cosine `qcosh`. -/
def qcosh (a : Int) : Int := (qsincosh a).2

/-- Hyperbolic sine `qsinh`. -/
def qsinh (a : Int) : Int := (qsincosh a).1

/-- Exponential via CORDIC, `qcordic_exp(e) = sinh(e) + cosh(e)`. -/
def qcordic_exp (e : Int) : Int :=
  let (s, c) := qsincosh e
  qadd s c

/-- Natural logarithm via CORDIC, `qcordic_ln(d)`: hyperbolic vectoring
from (d + 1, d - 1, 0); the z output is ln(d)/2 and is doubled. -/
def qcordic_ln (d : Int) : Int :=
  let (_, _, _, z) := cordic .hyperbolic .vector (-1)
    (qadd d (qint 1)) (qsub d (qint 1)) 0
  qadd z z

/-- Square root via CORDIC (testing only), `qcordic_sqrt`. -/
def qcordic_sqrt (n : Int) : Int :=
  let quarter : Int := 16384
  let (_, x, _, _) := cordic .hyperbolic .vector (-1)
    (qadd n quarter) (qsub n quarter) 0
  qmul x cordic_hyperbolic_inverse_scaling

/-- Hypotenuse `qhypot(a, b)`: circular vectoring from (|a|, |b|, 0),
rescaled by the inverse circular gain. -/
def qhypot (a b : Int) : Int :=
  let (_, x, _, _) := cordic .circular .vector (-1) (qabs a) (qabs b) 0
  qmul x cordic_circular_inverse_scaling

/-- Logarithm range-reduction loop of `qlog`: halve `x` until it is at
most `lmax = QMK(9, 0x8000, 16)`, accumulating `ln 2` per halving. -/
def qlogLoop (logs x : Int) : Int × Int :=
  if 622592 < x then qlogLoop (qadd logs qinfo_ln2) (divn x 1) else (logs, x)
termination_by x.toNat
decreasing_by
  simp only [divn] at *
  omega

/-- Natural logarithm `qlog(x)` (precondition `x > 0` is a debug
assertion; the embedding is the release build's arithmetic). -/
def qlog (x : Int) : Int :=
  let (logs, x1) := qlogLoop 0 x
  qadd logs (qcordic_ln x1)

/-- Squaring `qsqr(x) = qmul(x, x)`. -/
def qsqr (x : Int) : Int := qmul x x

/-- Exponential `qexp(e)`: below one use the CORDIC exponential,
otherwise square `qexp(e/2)`. -/
def qexp (e : Int) : Int :=
  if e < qint 1 then qcordic_exp e
  else qsqr (qexp (divn e 1))
termination_by e.toNat
decreasing_by
  simp only [divn, qint, wrap32] at *
  omega

/-- Newton-Raphson loop of `qsqrt`, with fuel.  The C loop iterates
until the residual drops below the tolerance; convergence (hence an
adequate fuel) is not proved here, and no claim below depends on the
values this computes. -/
def qsqrtLoop (fuel : Nat) (x difference guess : Int) : Int :=
  match fuel with
  | 0 => guess
  | fuel + 1 =>
    if difference < qabs (qsub (qmul guess guess) x) then
      qsqrtLoop fuel x difference (divn (qadd (qdiv x guess) guess) 1)
    else guess

/-- Square root `qsqrt(x)` (precondition `x >= 0` is a debug assertion;
release-build arithmetic). -/
def qsqrt (x : Int) : Int :=
  let difference : Int := if qint 100 < x then 0x0100 else 0x0010
  if x = 0 then 0
  else
    let guess := if qinfo_sqrt2 < x then divn x 1 else qint 1
    qabs (qsqrtLoop 1000 x difference guess)

/-- Arcsine `qasin(t) = qatan2(t, sqrt(1 - t*t))`. -/
def qasin (t : Int) : Int :=
  qatan2 t (qsqrt (qsub (qint 1) (qmul t t)))

/-- Arccosine `qacos(t) = qatan2(sqrt(1 - t*t), t)`. -/
def qacos (t : Int) : Int :=
  qatan2 (qsqrt (qsub (qint 1) (qmul t t))) t

/-- Inverse hyperbolic tangent
`qatanh(x) = log((1+x)/(1-x)) * 0.5`. -/
def qatanh (x : Int) : Int :=
  qmul (qlog (qdiv (qadd (qint 1) x) (qsub (qint 1) x))) 0x8000

/-- Inverse hyperbolic sine `qasinh(x) = log(x + sqrt(x*x + 1))`. -/
def qasinh (x : Int) : Int :=
  qlog (qadd x (qsqrt (qadd (qmul x x) (qint 1))))

/-- Inverse hyperbolic cosine `qacosh(x) = log(x + sqrt(x*x - 1))`. -/
def qacosh (x : Int) : Int :=
  qlog (qadd x (qsqrt (qsub (qmul x x) (qint 1))))

/-- Degrees to radians `qdeg2rad(deg) = qdiv(qmul(QPI, deg), QINT(180))`. -/
def qdeg2rad (deg : Int) : Int := qdiv (qmul QPI deg) (qint 180)

/-- Radians to degrees `qrad2deg(rad) = qdiv(qmul(QINT(180), rad), QPI)`. -/
def qrad2deg (rad : Int) : Int := qdiv (qmul (qint 180) rad) QPI

/-- Result of the fueled embedding of the recursive `qpow`:
a value, a failed debug assertion, or fuel exhaustion (the C function
can actually recurse forever, e.g. `qabs qinfo.min` is negative, so a
fuel-free total embedding does not exist). -/
inductive QpowResult where
  | ok (v : Int)
  | assertViolation
  | outOfFuel
deriving DecidableEq

/-- Power `qpow(n, exp)`.  The two `implies` assertions at entry are
modelled as `assertViolation` results (debug-build semantics):
`n` negative requires an integer exponent, and `n = 0` requires a
nonzero exponent.  For `n = 0` the result is `QINT(1)`; negative `n`
reduces to `|n|` with a sign fix for odd integer exponents; a negative
exponent reciprocates (`qdiv` by a zero `qpow` would be a division by
zero, also modelled as a violation); otherwise
`qexp(multiply(qlog(n), exp))`, the 64-bit product truncated to 32 bits
on function-argument conversion. -/
def qpow (fuel : Nat) (n expo : Int) : QpowResult :=
  match fuel with
  | 0 => .outOfFuel
  | fuel + 1 =>
    if qisnegativeB n ∧ ¬(qisintegerB expo = true) then .assertViolation
    else if n = 0 ∧ expo = 0 then .assertViolation
    else if n = 0 then .ok (qint 1)
    else if qisnegativeB n then
      match qpow fuel (qabs n) expo with
      | .ok abspow => .ok (if qisoddB expo then qnegate abspow else abspow)
      | r => r
    else if qisnegativeB expo then
      match qpow fuel n (qabs expo) with
      | .ok v => if v = 0 then .assertViolation else .ok (qdiv (qint 1) v)
      | r => r
    else .ok (qexp (wrap32 (multiply (qlog n) expo)))

/-- Integer conversion `qtoi(toi) = ((lu_t)((ld_t)toi)) >> QBITS`:
sign-extend to 64 bits, logically shift the unsigned 64-bit pattern,
truncate back to `int`. -/
def qtoi (q : Int) : Int := wrap32 ((q % 2 ^ 64) / 65536)

/-- Unsigned 32-bit bit pattern of a value, as a natural number. -/
def u32N (a : Int) : Nat := (toU32 a).toNat

/-- A 32-bit unsigned pattern reinterpreted as a signed `q_t`. -/
def ofU32 (n : Nat) : Int := wrap32 n

/-- Bitwise and `qand` (two's-complement bit patterns). -/
def qand (a b : Int) : Int := ofU32 (Nat.land (u32N a) (u32N b))

/-- Bitwise or `qor`. -/
def qor (a b : Int) : Int := ofU32 (Nat.lor (u32N a) (u32N b))

/-- Bitwise exclusive or `qxor`. -/
def qxor (a b : Int) : Int := ofU32 (Nat.xor (u32N a) (u32N b))

/-- Bitwise complement `qinvert`. -/
def qinvert (a : Int) : Int := ofU32 (Nat.xor (u32N a) 4294967295)

/-- Logical not `qnot(a) = QINT(!a)`. -/
def qnot (a : Int) : Int := qint (if a = 0 then 1 else 0)

/-- Logical shift right `qlrs(a, b) = (u_t)a >> (u_t)qtoi(b)`
(a shift count of 32 or more is undefined behaviour in C; the `Nat`
shift used here then yields 0). -/
def qlrs (a b : Int) : Int := ofU32 ((u32N a) >>> (u32N (qtoi b)))

/-- Left shift `qlls(a, b) = (u_t)a << b` (a shift count outside
[0, 31] is undefined behaviour in C; negative counts are modelled as
0 via `Int.toNat`, and `ofU32` reduces the result into 32 bits). -/
def qlls (a b : Int) : Int := ofU32 ((u32N a) <<< b.toNat)

/-- Arithmetic shift right `qars(a, b) = arshift(a, qtoi(b))` (negative
counts are undefined behaviour in C, modelled as 0). -/
def qars (a b : Int) : Int := divn a (qtoi b).toNat

/-- The evaluator's `base` operator `qbase`: reject a radix outside
2..36 with `-QINT(1)`, otherwise return the argument.  (The C code
also stores the radix into the global `qconf.base`; no claim settled
here evaluates an expression whose meaning depends on that store, so
the configuration write is not threaded through.) -/
def qbase (b : Int) : Int := if qtoi b < 2 ∨ 36 < qtoi b then -65536 else b

/-- The evaluator's `places` operator `qplaces`: returns its argument
(the store into `qconf.dp` is not threaded through, as with `qbase`). -/
def qplaces (places : Int) : Int := places

/-- Table wrapper for the recursive `qpow`: the release build either
computes a value or aborts/diverges; the fallback 0 stands for the
latter cases, which no claim exercises. -/
def qpowE (n expo : Int) : Int :=
  match qpow 64 n expo with
  | .ok v => v
  | _ => 0

/-- An entry of the evaluator's operator table `qoperations_t`:
name, unary or binary evaluation function, optional precondition check
(failure predicate plus the error text the check records), precedence,
arity, associativity (0 none, 1 left, 2 right), hidden flag. -/
structure Qop where
  name : String
  une : Option (Int → Int) := none
  bin : Option (Int → Int → Int) := none
  chkU : Option ((Int → Bool) × String) := none
  chkB : Option ((Int → Int → Bool) × String) := none
  prec : Int := 0
  arity : Nat := 0
  assoc : Nat := 0
  hidden : Bool := false

/-- Precondition `check_div0` (binary; fails on a zero divisor, the
second operand). -/
def chkDiv0 : (Int → Int → Bool) × String :=
  (fun _ b => b = 0, "division by zero")

/-- Precondition `check_nlz` (fails on a negative argument). -/
def chkNlz : (Int → Bool) × String :=
  (fun a => a < 0, "negative argument")

/-- Precondition `check_nlez` (fails on a non-positive argument). -/
def chkNlez : (Int → Bool) × String :=
  (fun a => a ≤ 0, "negative or zero argument")

/-- Precondition `check_nlo` (fails below one). -/
def chkNlo : (Int → Bool) × String :=
  (fun a => a < 65536, "out of range [1, INF]")

/-- Precondition `check_alo` (fails outside [-1, 1]). -/
def chkAlo : (Int → Bool) × String :=
  (fun a => 65536 < qabs a, "out of range [-1, 1]")

/-- The left parenthesis sentinel. -/
def opLpar : Qop := { name := "(" }

/-- The right parenthesis sentinel. -/
def opRpar : Qop := { name := ")" }

/-- The unary negate operator (the target of the minus
reinterpretation, `e->negate`). -/
def opNegate : Qop :=
  { name := "negate", une := some qnegate, prec := 5, arity := 1, assoc := 2 }

/-- The binary minus operator (`e->minus`). -/
def opMinus : Qop :=
  { name := "-", bin := some qsub, prec := 2, arity := 2, assoc := 1 }

/-- The operator table of `qop`, in the source's (name-sorted) order. -/
def qopTable : List Qop :=
  [ { name := "!", une := some qnot, prec := 5, arity := 1, assoc := 2 },
    { name := "!=", bin := some qunequal, prec := 2, arity := 2, assoc := 1 },
    { name := "%", bin := some qrem, chkB := some chkDiv0, prec := 3, arity := 2, assoc := 1 },
    { name := "&", bin := some qand, prec := 2, arity := 2, assoc := 1 },
    opLpar,
    opRpar,
    { name := "*", bin := some qmul, prec := 3, arity := 2, assoc := 1 },
    { name := "+", bin := some qadd, prec := 2, arity := 2, assoc := 1 },
    opMinus,
    { name := "/", bin := some qdiv, chkB := some chkDiv0, prec := 3, arity := 2, assoc := 1 },
    { name := "<", bin := some qless, prec := 2, arity := 2, assoc := 1 },
    { name := "<<", bin := some qlls, prec := 4, arity := 2, assoc := 2 },
    { name := "<=", bin := some qeqless, prec := 2, arity := 2, assoc := 1 },
    { name := "==", bin := some qequal, prec := 2, arity := 2, assoc := 1 },
    { name := ">", bin := some qmore, prec := 2, arity := 2, assoc := 1 },
    { name := ">=", bin := some qeqmore, prec := 2, arity := 2, assoc := 1 },
    { name := ">>", bin := some qlrs, prec := 4, arity := 2, assoc := 2 },
    { name := "^", bin := some qxor, prec := 2, arity := 2, assoc := 1 },
    { name := "_div", bin := some qcordic_div, prec := 5, arity := 2, assoc := 2, hidden := true },
    { name := "_exp", une := some qcordic_exp, prec := 5, arity := 1, assoc := 2, hidden := true },
    { name := "_ln", une := some qcordic_ln, chkU := some chkNlez, prec := 5, arity := 1, assoc := 2, hidden := true },
    { name := "_mul", bin := some qcordic_mul, prec := 5, arity := 2, assoc := 2, hidden := true },
    { name := "_sqrt", une := some qcordic_sqrt, chkU := some chkNlz, prec := 5, arity := 1, assoc := 2, hidden := true },
    { name := "abs", une := some qabs, prec := 5, arity := 1, assoc := 2 },
    { name := "acos", une := some qacos, chkU := some chkAlo, prec := 5, arity := 1, assoc := 2 },
    { name := "acosh", une := some qacosh, chkU := some chkNlo, prec := 5, arity := 1, assoc := 2 },
    { name := "arshift", bin := some qars, prec := 4, arity := 2, assoc := 2, hidden := true },
    { name := "asin", une := some qasin, chkU := some chkAlo, prec := 5, arity := 1, assoc := 2 },
    { name := "asinh", une := some qasinh, prec := 5, arity := 1, assoc := 2 },
    { name := "atan", une := some qatan, prec := 5, arity := 1, assoc := 2 },
    { name := "atan2", bin := some qatan2, prec := 5, arity := 2, assoc := 2, hidden := true },
    { name := "atanh", une := some qatanh, chkU := some chkAlo, prec := 5, arity := 1, assoc := 2 },
    { name := "base", une := some qbase, prec := 2, arity := 1, assoc := 2 },
    { name := "ceil", une := some qceil, prec := 5, arity := 1, assoc := 2 },
    { name := "copysign", bin := some qcopysign, prec := 4, arity := 2, assoc := 2, hidden := true },
    { name := "cos", une := some qcos, prec := 5, arity := 1, assoc := 2 },
    { name := "cosh", une := some qcosh, prec := 5, arity := 1, assoc := 2 },
    { name := "cot", une := some qcot, prec := 5, arity := 1, assoc := 2 },
    { name := "deg2rad", une := some qdeg2rad, prec := 5, arity := 1, assoc := 2 },
    { name := "even?", une := some qiseven, prec := 5, arity := 1, assoc := 2 },
    { name := "exp", une := some qexp, prec := 5, arity := 1, assoc := 2 },
    { name := "floor", une := some qfloor, prec := 5, arity := 1, assoc := 2 },
    { name := "hypot", bin := some qhypot, prec := 5, arity := 2, assoc := 2 },
    { name := "int?", une := some qisinteger, prec := 5, arity := 1, assoc := 2 },
    { name := "log", une := some qlog, chkU := some chkNlez, prec := 5, arity := 1, assoc := 2 },
    { name := "lshift", bin := some qlls, prec := 4, arity := 2, assoc := 2, hidden := true },
    { name := "max", bin := some qmax, prec := 5, arity := 2, assoc := 2, hidden := true },
    { name := "min", bin := some qmin, prec := 5, arity := 2, assoc := 2, hidden := true },
    { name := "mod", bin := some qmod, chkB := some chkDiv0, prec := 3, arity := 2, assoc := 1 },
    { name := "neg?", une := some qisnegative, prec := 5, arity := 1, assoc := 2 },
    opNegate,
    { name := "odd?", une := some qisodd, prec := 5, arity := 1, assoc := 2 },
    { name := "places", une := some qplaces, prec := 2, arity := 1, assoc := 2 },
    { name := "pos?", une := some qispositive, prec := 5, arity := 1, assoc := 2 },
    { name := "pow", bin := some qpowE, prec := 5, arity := 2, assoc := 2 },
    { name := "rad2deg", une := some qrad2deg, prec := 5, arity := 1, assoc := 2 },
    { name := "rem", bin := some qrem, chkB := some chkDiv0, prec := 3, arity := 2, assoc := 1 },
    { name := "round", une := some qround, prec := 5, arity := 1, assoc := 2 },
    { name := "rshift", bin := some qlrs, prec := 4, arity := 2, assoc := 2, hidden := true },
    { name := "sign", une := some qsign, prec := 5, arity := 1, assoc := 2 },
    { name := "signum", une := some qsignum, prec := 5, arity := 1, assoc := 2 },
    { name := "sin", une := some qsin, prec := 5, arity := 1, assoc := 2 },
    { name := "sinh", une := some qsinh, prec := 5, arity := 1, assoc := 2 },
    { name := "sqrt", une := some qsqrt, chkU := some chkNlz, prec := 5, arity := 1, assoc := 2 },
    { name := "tan", une := some qtan, prec := 5, arity := 1, assoc := 2 },
    { name := "tanh", une := some qtanh, prec := 5, arity := 1, assoc := 2 },
    { name := "trunc", une := some qtrunc, prec := 5, arity := 1, assoc := 2 },
    { name := "|", bin := some qor, prec := 2, arity := 2, assoc := 1 },
    { name := "~", une := some qinvert, prec := 5, arity := 1, assoc := 2 } ]

/-- Operator lookup `qop(name)`.  The C code runs an iterative binary
search over the name-sorted table; on this sorted table that search
returns exactly the entry with the given name (or null), so the lookup
is modelled as a search by name. -/
def qop (s : String) : Option Qop := qopTable.find? (fun o => o.name = s)

/-- The expression evaluator state `qexpr_t`: the two bounded stacks
(modelled as lists whose length is the C count, head on top, with the
capacities `ops_max`/`numbers_max`), the variables, and the error
flag/text.  The lexer scratch fields (`id`, `number`, `op`) are local
to one token and are modelled as return values of `lex`. -/
structure QState where
  ops : List Qop
  numbers : List Int
  opsMax : Nat
  numbersMax : Nat
  vars : List (String × Int)
  error : Int
  errorString : String
  inited : Bool

/-- The error recorder `error(e, fmt, ...)`: the first error wins. -/
def seterr (e : QState) (msg : String) : QState :=
  if e.error ≠ 0 then e else { e with error := -1, errorString := msg }

/-- Push on the number stack (`number_push`): a no-op in an error
state; pushing past the capacity (`count > max - 1`, size_t
arithmetic, here with `max` at least 1 as `expr_new` guarantees)
records a stack overflow and changes nothing. -/
def number_push (e : QState) (num : Int) : QState × Int :=
  if e.error ≠ 0 then (e, -1)
  else if e.numbersMax - 1 < e.numbers.length then
    (seterr e ("number stack overflow"), -1)
  else ({ e with numbers := num :: e.numbers }, 0)

/-- Pop from the number stack (`number_pop`); returns -1 (as a `q_t`)
in an error state or on an empty stack. -/
def number_pop (e : QState) : QState × Int :=
  if e.error ≠ 0 then (e, -1)
  else
    match e.numbers with
    | [] => (seterr e ("number stack empty"), -1)
    | n :: rest => ({ e with numbers := rest }, n)

/-- Push on the operator stack (`op_push`). -/
def op_push (e : QState) (op : Qop) : QState × Int :=
  if e.error ≠ 0 then (e, -1)
  else if e.opsMax - 1 < e.ops.length then
    (seterr e ("operator stack overflow"), -1)
  else ({ e with ops := op :: e.ops }, 0)

/-- Pop from the operator stack (`op_pop`). -/
def op_pop (e : QState) : QState × Option Qop :=
  if e.error ≠ 0 then (e, none)
  else
    match e.ops with
    | [] => (seterr e ("operator stack empty"), none)
    | o :: rest => ({ e with ops := rest }, some o)

/-- Pop-and-evaluate (`op_eval`): pop an operator and one (unary) or
two (binary) numbers, run the operator's precondition check (which
records its own error text on failure; a check invoked in an
already-error state is a no-op, and the subsequent push is then also a
no-op), and push the result. -/
def op_eval (e : QState) : QState × Int :=
  match op_pop e with
  | (e, none) => (e, -1)
  | (e, some pop) =>
    let (e, a) := number_pop e
    let has := if pop.arity = 1 then pop.une.isSome else pop.bin.isSome
    if ¬has then (seterr e ("syntax error"), -1)
    else if pop.arity = 1 then
      match pop.une with
      | some f =>
        match pop.chkU with
        | some chk =>
          if chk.1 a ∧ e.error = 0 then (seterr e chk.2, -1)
          else number_push e (f a)
        | none => number_push e (f a)
      | none => (e, -1)
    else
      let (e, b) := number_pop e
      match pop.bin with
      | some f =>
        match pop.chkB with
        | some chk =>
          if chk.1 b a ∧ e.error = 0 then (seterr e chk.2, -1)
          else number_push e (f b a)
        | none => number_push e (f b a)
      | none => (e, -1)

/-- A pop-and-evaluate loop
`while (ops_count && cond(top)) if (op_eval(e) < 0 || e->error) break;`
with explicit fuel (each continuing round pops an operator, so fuel
`ops.length + 1` is never exhausted). -/
def popEvalWhile (cond : Qop → Bool) (fuel : Nat) (e : QState) : QState :=
  match fuel with
  | 0 => e
  | fuel + 1 =>
    match e.ops with
    | [] => e
    | top :: _ =>
      if cond top then
        let (e1, r) := op_eval e
        if r < 0 ∨ e1.error ≠ 0 then e1 else popEvalWhile cond fuel e1
      else e

/-- One shunting-yard step (`shunt`): parentheses are sentinels;
a right-associative operator evaluates stacked operators of strictly
higher precedence, a left-associative one also those of equal
precedence; then the operator is pushed.  A right parenthesis
evaluates down to the matching left parenthesis (clearing any pending
error so that the missing-parenthesis message is recorded). -/
def shunt (e : QState) (op : Qop) : QState × Int :=
  if op.name = "(" then op_push e op
  else if op.name = ")" then
    let e := popEvalWhile (fun t => ¬(t.name = "(")) (e.ops.length + 1) e
    match op_pop e with
    | (e, some p) =>
      if p.name = "(" then (e, 0)
      else (seterr { e with error := 0 } ("expected \"(\""), -1)
    | (e, none) => (seterr { e with error := 0 } ("expected \"(\""), -1)
  else if op.assoc = 2 then
    let e := popEvalWhile (fun t => op.prec < t.prec) (e.ops.length + 1) e
    op_push e op
  else
    let e := popEvalWhile (fun t => op.prec ≤ t.prec) (e.ops.length + 1) e
    op_push e op

/-- ASCII `isspace` (C locale). -/
def isspaceC (c : Char) : Bool := c.toNat = 32 ∨ (9 ≤ c.toNat ∧ c.toNat ≤ 13)

/-- ASCII `isalpha` (C locale). -/
def isalphaC (c : Char) : Bool :=
  (65 ≤ c.toNat ∧ c.toNat ≤ 90) ∨ (97 ≤ c.toNat ∧ c.toNat ≤ 122)

/-- ASCII `isdigit`. -/
def isdigitC (c : Char) : Bool := 48 ≤ c.toNat ∧ c.toNat ≤ 57

/-- ASCII `isalnum`. -/
def isalnumC (c : Char) : Bool := isalphaC c || isdigitC c

/-- ASCII `ispunct` (printable, not alphanumeric, not space). -/
def ispunctC (c : Char) : Bool :=
  (33 ≤ c.toNat ∧ c.toNat ≤ 126) ∧ ¬(isalnumC c = true)

/-- Identifier scan of `lex`: leading letter or underscore was checked
by the caller; collect alphanumerics and underscores, at most
`bound = QMAX_ID = 32` characters. -/
def spanIdent (s : List Char) (bound : Nat) : List Char × List Char :=
  match bound, s with
  | 0, s => ([], s)
  | _, [] => ([], [])
  | b + 1, c :: rest =>
    if isalnumC c || c = '_' then
      let (i, r) := spanIdent rest b
      (c :: i, r)
    else ([], c :: rest)

/-- Number scan of `lex`: digits with at most one dot, at most
`QMAX_ID = 32` characters.  Stops at an embedded NUL like the C loop
(`*s` is a loop condition), which is not a digit anyway. -/
def spanNum (s : List Char) (bound : Nat) (dot : Bool) : List Char × List Char :=
  match bound, s with
  | 0, s => ([], s)
  | _, [] => ([], [])
  | b + 1, c :: rest =>
    if isdigitC c || (c = '.' && !dot) then
      let (i, r) := spanNum rest b (dot || c = '.')
      (c :: i, r)
    else ([], c :: rest)

/-- Variable lookup (first match in insertion order). -/
def variable_lookup (vars : List (String × Int)) (name : String) : Option Int :=
  (vars.find? (fun v => v.1 = name)).map (fun v => v.2)

/-- A token produced by `lex`: a number (`LEX_NUMBER`, from a literal
or a variable), an operator (`LEX_OPERATOR`), end of input
(`LEX_END`), or an invalid token (the C `-1`, carrying the scratch
`id` used in the error message). -/
inductive LexTok where
  | num (v : Int)
  | op (o : Qop)
  | done
  | bad (id : String)

/-- The lexer `lex(e, &expr)`: skip spaces; an identifier is first a
variable then an operator name; punctuation tries the two-character
operator before the one-character one (pushing back the second
character if only the short form exists); digit runs (with one dot)
become numbers via `numberify`. -/
def lex (vars : List (String × Int)) (s : List Char) : LexTok × List Char :=
  let s := s.dropWhile isspaceC
  match s with
  | [] => (.done, [])
  | c :: rest =>
    if c.toNat = 0 then (.done, c :: rest)
    else if isalphaC c || c = '_' then
      let (id, rest2) := spanIdent (c :: rest) 32
      let name := String.mk id
      match variable_lookup vars name with
      | some v => (.num v, rest2)
      | none =>
        match qop name with
        | some o => (.op o, rest2)
        | none => (.bad name, rest2)
    else if ispunctC c then
      let id1 := String.mk [c]
      let op1 := qop id1
      match rest with
      | c2 :: rest2 =>
        if ispunctC c2 then
          let id2 := String.mk [c, c2]
          match qop id2 with
          | some o2 => (.op o2, rest2)
          | none =>
            match op1 with
            | some o1 => (.op o1, c2 :: rest2)
            | none => (.bad id1, c2 :: rest2)
        else
          match op1 with
          | some o1 => (.op o1, c2 :: rest2)
          | none => (.bad id1, c2 :: rest2)
      | [] =>
        match op1 with
        | some o1 => (.op o1, [])
        | none => (.bad id1, [])
    else if isdigitC c then
      let (id, rest2) := spanNum (c :: rest) 32 false
      (.num (numberify id), rest2)
    else (.bad "", c :: rest)

/-- The token loop of `qexpr`.  `firstop` is true before any token;
`previous` is the previously shunted operator (cleared by a number).
A minus at the start or after an operator other than `)` becomes the
unary negate; other binary operators there (except `(`) are an
`invalid use` error that jumps to the end (second result `true`),
skipping the drain loop.  An invalid token errors and leaves the loop
normally.  Fuel: each continuing token consumes at least one input
character. -/
def qexprLoop (fuel : Nat) (e : QState) (s : List Char) (firstop : Bool)
    (previous : Option Qop) : QState × Bool :=
  match fuel with
  | 0 => (e, false)
  | fuel + 1 =>
    if e.error ≠ 0 then (e, false)
    else
      match lex e.vars s with
      | (.done, _) => (e, false)
      | (.num v, rest) =>
        let (e, _) := number_push e v
        qexprLoop fuel e rest false none
      | (.op op, rest) =>
        if firstop ∨ (previous.isSome ∧ ¬((previous.map Qop.name) = some ")")) then
          if op.name = "-" then
            let (e, _) := shunt e opNegate
            qexprLoop fuel e rest false (some opNegate)
          else if op.arity = 1 then
            let (e, _) := shunt e op
            qexprLoop fuel e rest false (some op)
          else if ¬(op.name = "(") then
            (seterr e ("invalid use of \"" ++ op.name ++ "\""), true)
          else
            let (e, _) := shunt e op
            qexprLoop fuel e rest false (some op)
        else
          let (e, _) := shunt e op
          qexprLoop fuel e rest false (some op)
      | (.bad id, _) => (seterr e ("invalid symbol: " ++ id), false)

/-- The final drain loop of `qexpr`:
`while (e->ops_count) if (op_eval(e) < 0 || e->error) break;`. -/
def drain (fuel : Nat) (e : QState) : QState :=
  match fuel with
  | 0 => e
  | fuel + 1 =>
    match e.ops with
    | [] => e
    | _ :: _ =>
      let (e1, r) := op_eval e
      if r < 0 ∨ e1.error ≠ 0 then e1 else drain fuel e1

/-- A freshly constructed evaluator (`expr_new(max)` followed by
`qexpr_init`): empty stacks with capacity `max` (0 requests the
default 64), the given variables, no error. -/
def freshState (max : Nat) (vars : List (String × Int)) : QState :=
  let m := if max = 0 then 64 else max
  { ops := [], numbers := [], opsMax := m, numbersMax := m,
    vars := vars, error := 0, errorString := "", inited := true }

/-- Expression evaluation `qexpr(e, expr)`: reset the error and both
stacks, run the token loop, then (unless the loop jumped to `end`)
drain the operator stack and require exactly one number to remain.
Returns the final state and the 0 or -1 status. -/
def qexpr (e : QState) (s : List Char) : QState × Int :=
  let e := if e.inited then
    { e with error := 0, errorString := "", ops := [], numbers := [] }
    else e
  let (e, gotoEnd) := qexprLoop (s.length + 1) e s true none
  if gotoEnd then (e, if e.error = 0 then 0 else -1)
  else
    let e := drain (e.ops.length + 1) e
    if ¬(e.numbers.length = 1) then
      (seterr e ("invalid expression: " ++ toString e.numbers.length), -1)
    else (e, if e.error = 0 then 0 else -1)

/-- Evaluation of one expression on a fresh evaluator of the default
capacity 64 with no variables (the configuration `expr_new(64)` used
by the library's own test driver). -/
def qexprRun (s : List Char) : QState := (qexpr (freshState 64 []) s).1


/-- The stack-bounds invariant of the evaluator: both counts are within
their capacities, and the capacities are positive (as `expr_new`
guarantees: a requested capacity of 0 becomes the default 64). -/
def StackInv (e : QState) : Prop :=
  e.numbers.length ≤ e.numbersMax ∧ e.ops.length ≤ e.opsMax ∧
  1 ≤ e.numbersMax ∧ 1 ≤ e.opsMax

/-- Evaluator states reachable from a freshly constructed instance
(any capacity, any variable set) through any sequence of `qexpr`
evaluations. -/
inductive Reachable : QState → Prop where
  | fresh (max : Nat) (vars : List (String × Int)) : Reachable (freshState max vars)
  | step (e : QState) (s : List Char) : Reachable e → Reachable (qexpr e s).1

/-! Helper lemmas. -/

/-- Values already in the 32-bit signed range are fixed by `wrap32`. -/
theorem wrap32_eq_self (x : Int) (h1 : DMIN ≤ x) (h2 : x ≤ DMAX) : wrap32 x = x := by
  simp only [wrap32, DMIN, DMAX] at *
  omega

/-- On in-range values the sign-bit test is the integer sign. -/
theorem qisnegativeB_iff (q : Int) (h1 : DMIN ≤ q) (h2 : q ≤ DMAX) :
    qisnegativeB q = true ↔ q < 0 := by
  simp only [qisnegativeB, qhigh, toU32, DMIN, DMAX, decide_eq_true_eq] at *
  omega

/-- Claim C1: for operands in the representable range, `qadd` returns
the widened 64-bit sum clamped to `[qinfo.min, qinfo.max]` under the
saturating policy, which is exactly the real-number sum of the
represented rationals clamped to the representable interval and scaled
back (stated over the underlying integers; division by 2^16 is a
strictly monotone bijection between the two readings, and the second
conjunct states the rational reading itself). -/
theorem qadd_is_saturated_sum (a b : Int) (ha1 : DMIN ≤ a) (ha2 : a ≤ DMAX)
    (hb1 : DMIN ≤ b) (hb2 : b ≤ DMAX) :
    qadd a b = max DMIN (min DMAX (a + b)) ∧
    (qadd a b : ℚ) / 65536 =
      max ((DMIN : ℚ) / 65536) (min ((DMAX : ℚ) / 65536) ((a : ℚ) / 65536 + (b : ℚ) / 65536)) := by
  have hmm : DMIN ≤ DMAX := by simp only [DMIN, DMAX]; omega
  have h : qadd a b = max DMIN (min DMAX (a + b)) := by
    rcases le_total (a + b) DMAX with h1 | h1
    · rcases le_total DMIN (a + b) with h2 | h2
      · rw [min_eq_right h1, max_eq_right h2]
        simp only [qadd, qsat, qbound_saturate, DMIN, DMAX] at h1 h2 ⊢
        split_ifs <;> omega
      · rw [min_eq_right (le_trans h2 hmm), max_eq_left h2]
        simp only [qadd, qsat, qbound_saturate, DMIN, DMAX] at h2 ⊢
        split_ifs <;> omega
    · rw [min_eq_left h1, max_eq_right hmm]
      simp only [qadd, qsat, qbound_saturate, DMIN, DMAX] at h1 ⊢
      split_ifs <;> omega
  refine ⟨h, ?_⟩
  rw [h]
  push_cast [Int.cast_max, Int.cast_min]
  rw [div_add_div_same, min_div_div_right (by norm_num : (0:ℚ) ≤ 65536),
    max_div_div_right (by norm_num : (0:ℚ) ≤ 65536)]

/-- Witness for claim C1 at a concrete overflowing input. -/
theorem qadd_is_saturated_sum_witness :
    qadd 2147483000 1000 = max DMIN (min DMAX (2147483000 + 1000)) ∧
    (qadd 2147483000 1000 : ℚ) / 65536 =
      max ((DMIN : ℚ) / 65536)
        (min ((DMAX : ℚ) / 65536) ((2147483000 : ℚ) / 65536 + (1000 : ℚ) / 65536)) :=
  qadd_is_saturated_sum 2147483000 1000 (by decide) (by decide) (by decide) (by decide)

/-- Claim C2: the spec's rounding disambiguation table holds exactly for
the Q16.16 values of 2.3, 3.8, 5.5, -2.3, -3.8, -5.5 (obtained through
the library's own text conversion at its default base 10 and four
decimal places): round/floor/ceil/trunc give (2,2,3,2), (4,3,4,3),
(6,5,6,5), (-2,-3,-2,-2), (-4,-4,-3,-3), (-6,-6,-5,-5); the 5.5 and
-5.5 rows exhibit rounding half away from zero. -/
theorem rounding_table_exact :
    (qround (qconv (['2', '.', '3'])).2 = qint 2 ∧
     qfloor (qconv (['2', '.', '3'])).2 = qint 2 ∧
     qceil (qconv (['2', '.', '3'])).2 = qint 3 ∧
     qtrunc (qconv (['2', '.', '3'])).2 = qint 2) ∧
    (qround (qconv (['3', '.', '8'])).2 = qint 4 ∧
     qfloor (qconv (['3', '.', '8'])).2 = qint 3 ∧
     qceil (qconv (['3', '.', '8'])).2 = qint 4 ∧
     qtrunc (qconv (['3', '.', '8'])).2 = qint 3) ∧
    (qround (qconv (['5', '.', '5'])).2 = qint 6 ∧
     qfloor (qconv (['5', '.', '5'])).2 = qint 5 ∧
     qceil (qconv (['5', '.', '5'])).2 = qint 6 ∧
     qtrunc (qconv (['5', '.', '5'])).2 = qint 5) ∧
    (qround (qconv (['-', '2', '.', '3'])).2 = qint (-2) ∧
     qfloor (qconv (['-', '2', '.', '3'])).2 = qint (-3) ∧
     qceil (qconv (['-', '2', '.', '3'])).2 = qint (-2) ∧
     qtrunc (qconv (['-', '2', '.', '3'])).2 = qint (-2)) ∧
    (qround (qconv (['-', '3', '.', '8'])).2 = qint (-4) ∧
     qfloor (qconv (['-', '3', '.', '8'])).2 = qint (-4) ∧
     qceil (qconv (['-', '3', '.', '8'])).2 = qint (-3) ∧
     qtrunc (qconv (['-', '3', '.', '8'])).2 = qint (-3)) ∧
    (qround (qconv (['-', '5', '.', '5'])).2 = qint (-6) ∧
     qfloor (qconv (['-', '5', '.', '5'])).2 = qint (-6) ∧
     qceil (qconv (['-', '5', '.', '5'])).2 = qint (-5) ∧
     qtrunc (qconv (['-', '5', '.', '5'])).2 = qint (-5)) := by
  decide

/-- Claim C4: the three CORDIC lookup tables hold seventeen entries
each, and for every coordinate system, mode, iteration request and
initial x, y, z, the routine (a total function here, so terminating)
returns the clamped iteration count it performed: the full table
length 17 for a negative request, otherwise the request capped at 17.
The updated x, y, z are the other components of the result (the C code
writes them back in place). -/
theorem cordic_tables_and_iteration_clamp :
    arctans.length = 17 ∧ arctanhs.length = 17 ∧ halfs.length = 17 ∧
    ∀ (coord : CordicCoord) (mode : CordicMode) (iterations x y z : Int),
      (cordic coord mode iterations x y z).1 =
        if iterations < 0 then 17 else min iterations 17 := by
  refine ⟨by decide, by decide, by decide, ?_⟩
  intro coord mode its x y z
  have harc : (arctans.length : Int) = 17 := by decide
  have harch : (arctanhs.length : Int) = 17 := by decide
  have hh : (halfs.length : Int) = 17 := by decide
  rcases coord <;>
    simp only [cordic, harc, harch, hh, min_def] <;>
    split_ifs <;> omega

/-- Claim C9: negation and absolute value do not saturate at the most
negative value: `qnegate(qinfo.min)` and hence `qabs(qinfo.min)` are
`qinfo.min` itself (two's-complement wraparound), so `qabs` is negative
exactly there and non-negative on every other representable input. -/
theorem qabs_min_wraps :
    qnegate DMIN = DMIN ∧ qabs DMIN = DMIN ∧ qabs DMIN < 0 ∧
    ∀ q, DMIN ≤ q → q ≤ DMAX → ¬(q = DMIN) → 0 ≤ qabs q := by
  refine ⟨by decide, by decide, by decide, ?_⟩
  intro q h1 h2 h3
  have hn := qisnegativeB_iff q h1 h2
  simp only [qabs]
  split_ifs with hq
  · have : q < 0 := hn.mp hq
    simp only [qnegate, wrap32, DMIN, DMAX] at *
    omega
  · have : ¬(q < 0) := fun hlt => hq (hn.mpr hlt)
    omega

/-- Witness for claim C9 at a concrete negative input. -/
theorem qabs_min_wraps_witness : 0 ≤ qabs (-5) :=
  qabs_min_wraps.2.2.2 (-5) (by decide) (by decide) (by decide)

/-- Claim C8: for every representable Q value and any buffer of length
at least 4, `qpack` succeeds with return value 4, writing exactly the
four little-endian bytes of the value; `qunpack` from those bytes
restores the value bit-identically (whatever the previous contents of
the output).  For every buffer length below 4 both functions fail with
-1, `qpack` writing nothing and `qunpack` leaving the output
untouched. -/
theorem qpack_qunpack_roundtrip (q : Int) (h1 : DMIN ≤ q) (h2 : q ≤ DMAX) :
    (∀ len, 4 ≤ len →
      (qpack q len).1 = 4 ∧ (qpack q len).2.length = 4 ∧
      ∀ qold, qunpack qold (qpack q len).2 4 = (4, q)) ∧
    (∀ len, len < 4 →
      qpack q len = (-1, []) ∧ ∀ qold buffer, qunpack qold buffer len = (-1, qold)) := by
  constructor
  · intro len hlen
    have hnot : ¬(len < 4) := by omega
    refine ⟨by simp [qpack, hnot], by simp [qpack, hnot], ?_⟩
    intro qold
    simp only [qpack, hnot, if_false, qunpack, List.getD, List.get?, toU32, wrap32]
    norm_num
    simp only [DMIN, DMAX] at h1 h2
    omega
  · intro len hlen
    exact ⟨by simp [qpack, hlen], fun qold buffer => by simp [qunpack, hlen]⟩

/-- Witness for claim C8 at a concrete negative value. -/
theorem qpack_qunpack_roundtrip_witness :
    ((qpack (-123456) 4).1 = 4 ∧ (qpack (-123456) 4).2.length = 4 ∧
      ∀ qold, qunpack qold (qpack (-123456) 4).2 4 = (4, -123456)) ∧
    (qpack (-123456) 3 = (-1, []) ∧
      ∀ qold buffer, qunpack qold buffer 3 = (-1, qold)) :=
  ⟨(qpack_qunpack_roundtrip (-123456) (by decide) (by decide)).1 4 (by omega),
   (qpack_qunpack_roundtrip (-123456) (by decide) (by decide)).2 3 (by omega)⟩

/-- Claim C6 counterexample: `qpow(0, 0)` trips the entry assertion
`implies(qequal(n, QINT(0)), qunequal(exp, QINT(0)))` instead of
returning 1, and `qpow(0, -1)` (a negative exponent) passes both
assertions and returns `QINT(1)` instead of triggering a domain
violation -- the opposite of the claim on both counts. -/
theorem qpow_zero_claim_false :
    qpow 4 0 0 = .assertViolation ∧ ¬(qpow 4 0 0 = .ok (qint 1)) ∧
    qpow 4 0 (-65536) = .ok (qint 1) := by decide

/-- Claim C6 amended: `qpow(0, 0)` triggers a domain violation (the
failed debug assertion requiring a nonzero exponent when the base is
zero), while `qpow(0, e)` for every nonzero `e` -- negative as well as
positive -- returns the Q value 1 by convention. -/
theorem qpow_zero_cases (fuel : Nat) (e : Int) (hf : 1 ≤ fuel) :
    qpow fuel 0 0 = .assertViolation ∧
    (e < 0 → qpow fuel 0 e = .ok (qint 1)) ∧
    (0 < e → qpow fuel 0 e = .ok (qint 1)) := by
  obtain ⟨fuel, rfl⟩ : ∃ n, fuel = n + 1 := ⟨fuel - 1, by omega⟩
  have hneg : qisnegativeB 0 = false := by decide
  refine ⟨by simp [qpow, hneg], fun he => ?_, fun he => ?_⟩ <;>
    -- the base-zero path is taken before any sign test on the exponent
    simp [qpow, hneg, (show ¬(e = 0) by omega)]

/-- Witness for claim C6 at fuel 2 and exponent -3. -/
theorem qpow_zero_cases_witness :
    qpow 2 0 0 = .assertViolation ∧
    ((-3 : Int) < 0 → qpow 2 0 (-3) = .ok (qint 1)) ∧
    ((0 : Int) < -3 → qpow 2 0 (-3) = .ok (qint 1)) :=
  qpow_zero_cases 2 (-3) (by omega)

/-- Claim C7 counterexample: evaluating `-1---1` on a fresh evaluator
succeeds, but the single number left on the stack is the Q value -2,
not the value 0 the spec's scenario table expects (the expression
parses as `(-1) - (negate (negate 1)) = -1 - 1`). -/
theorem qexpr_unary_chain_not_zero :
    (qexprRun (['-', '1', '-', '-', '-', '1'])).error = 0 ∧
    ¬((qexprRun (['-', '1', '-', '-', '-', '1'])).numbers = [qint 0]) := by decide

/-- Claim C7 amended: evaluating `-1---1` succeeds (no error flagged)
and leaves the Q value representing -2 as the single result on the
number stack; the minus signs at the start of the input or directly
after another operator are reinterpreted as the unary negate
operator (so the input parses as `(-1) - (negate (negate 1))`). -/
theorem qexpr_unary_chain_value :
    (qexprRun (['-', '1', '-', '-', '-', '1'])).error = 0 ∧
    (qexprRun (['-', '1', '-', '-', '-', '1'])).numbers = [qint (-2)] := by decide

/-- The fractional scan can only fail with the bad-digit code -3 or the
places-overflow code -4. -/
theorem scanFrac_error_cases (cs : List Char) (base : Int) (maxdp : Nat) :
    ∀ (dp : Nat) (lo places e : Int),
      scanFrac cs base maxdp dp lo places = .error e → e = -3 ∨ e = -4 := by
  induction cs with
  | nil => intro dp lo places e h; simp [scanFrac] at h
  | cons c rest ih =>
    intro dp lo places e h
    simp only [scanFrac] at h
    split_ifs at h
    all_goals
      first
      | (simp only [Except.error.injEq] at h; omega)
      | (exfalso; simp at h)
      | exact ih _ _ _ _ h

/-- The fractional scan keeps its denominator positive (it starts at 1
and is only ever multiplied by the base). -/
theorem scanFrac_places_pos (cs : List Char) (base : Int) (maxdp : Nat)
    (hbase : 1 ≤ base) :
    ∀ (dp : Nat) (lo places lo2 places2 : Int), 1 ≤ places →
      scanFrac cs base maxdp dp lo places = .ok (lo2, places2) → 1 ≤ places2 := by
  induction cs with
  | nil =>
    intro dp lo places lo2 places2 hpl h
    simp only [scanFrac, Except.ok.injEq, Prod.mk.injEq] at h
    omega
  | cons c rest ih =>
    intro dp lo places lo2 places2 hpl h
    simp only [scanFrac] at h
    split_ifs at h with h1 h2 h3 h4
    · simp only [Except.ok.injEq, Prod.mk.injEq] at h
      omega
    · exact ih _ _ _ _ _ (le_trans hpl (le_mul_of_one_le_right (by omega) hbase)) h
    · exact ih _ _ _ _ _ hpl h

/-- Claim C5 counterexample: in the input `999999.@` (base 10) the
integer part exceeds the Q maximum during accumulation (the scan's
overflow flag is raised), yet the conversion returns the bad-digit
code -3 -- one of the codes the claim says the result is distinct
from -- and stores 0, not the saturated maximum. -/
theorem qnconv_overflow_claim_false :
    (scanInt (['9', '9', '9', '9', '9', '9', '.', '@']) 10 0 false).2.1 = true ∧
    qnconvbdp (['9', '9', '9', '9', '9', '9', '.', '@']) 10 4 = (-3, 0) ∧
    ¬((-3 : Int) = -6) ∧ ¬((0 : Int) = DMAX) := by decide

/-- Claim C5 amended: for every input string whose integer part exceeds
the maximum representable Q integer during accumulation (in any base
2..36, for any digit limit), the conversion returns the dedicated
overflow code -6 -- negative and distinct from the no-digits (-1),
bad-separator (-2) and bad-digit (-3) codes -- and stores the saturated
limit in `*q` (`qinfo.min` with a leading minus sign, `qinfo.max`
otherwise), *unless* the text after the integer digits is itself
ill-formed, *in which case* that error (-2, -3 or -4) is returned with
`*q` still 0.  The two guards, stated with `qnconvTailOk`, follow the
conversion's own branch structure and are mutually exclusive. -/
theorem qnconv_overflow_saturates (s : List Char) (base : Int) (idp : Nat)
    (hb1 : 2 ≤ base) (hb2 : base ≤ 36)
    (hov : (scanInt (if s.headD ' ' = '-' then s.tail else s) base 0 false).2.1 = true) :
    (qnconvTailOk (scanInt (if s.headD ' ' = '-' then s.tail else s) base 0 false).2.2
        base idp = true →
      qnconvbdp s base idp = (-6, if s.headD ' ' = '-' then DMIN else DMAX)) ∧
    (qnconvTailOk (scanInt (if s.headD ' ' = '-' then s.tail else s) base 0 false).2.2
        base idp = false →
      (((qnconvbdp s base idp).1 = -2 ∨ (qnconvbdp s base idp).1 = -3 ∨
        (qnconvbdp s base idp).1 = -4) ∧ (qnconvbdp s base idp).2 = 0)) := by
  rcases hsc : scanInt (if s.headD ' ' = '-' then s.tail else s) base 0 false
    with ⟨hi, ov, s2⟩
  rw [hsc] at hov
  simp only at hov
  subst hov
  have hs1 : ¬(s.length < 1) := by
    rcases s with _ | ⟨c, rest⟩
    · simp [scanInt] at hsc
    · simp
  have hs2 : ¬(s.headD ' ' = '-' ∧ s.length < 2) := by
    rintro ⟨hneg, hlen⟩
    rcases s with _ | ⟨c, rest⟩
    · simp at hs1
    · rcases rest with _ | ⟨c2, rest2⟩
      · simp only [List.headD] at hneg
        rw [if_pos (by simpa using hneg)] at hsc
        simp [scanInt, List.tail] at hsc
      · simp only [List.length] at hlen
        omega
  simp only [qnconvbdp]
  rw [if_neg hs1, if_neg hs2, hsc]
  simp only
  rcases s2 with _ | ⟨c, rest⟩
  · -- nothing after the digits: the tail is well formed
    refine ⟨fun _ => ?_, fun hbad => absurd hbad (by simp [qnconvTailOk])⟩
    by_cases hm : s.headD ' ' = '-' <;> simp [qconvDone, hm]
  · simp only
    by_cases hnul : c.toNat = 0
    · -- NUL terminator: the tail is well formed
      rw [if_pos hnul]
      refine ⟨fun _ => ?_, fun hbad => ?_⟩
      · by_cases hm : s.headD ' ' = '-' <;> simp [qconvDone, hm]
      · simp only [qnconvTailOk] at hbad
        rw [if_pos hnul] at hbad
        exact absurd hbad (by simp)
    · rw [if_neg hnul]
      by_cases hdot : c = '.'
      · rw [if_neg (not_not_intro hdot)]
        rcases hsf : scanFrac rest base (min idp (integer_logarithm 65536 base.toNat)) 0 0 1
          with e | ⟨lo, places⟩
        · -- ill-formed fractional part: that error is returned with 0
          refine ⟨fun hok => ?_, fun _ => ?_⟩
          · simp only [qnconvTailOk] at hok
            rw [if_neg hnul, if_neg (not_not_intro hdot), hsf] at hok
            exact absurd hok (by simp)
          · rcases scanFrac_error_cases rest base _ _ _ _ _ hsf with rfl | rfl
            · simp
            · simp
        · -- well-formed fractional part: the overflow code wins at done
          have hpl : 1 ≤ places :=
            scanFrac_places_pos rest base _ (by omega) _ _ _ _ _ le_rfl hsf
          dsimp only
          rw [if_neg (show ¬(places = 0) by omega)]
          refine ⟨fun _ => ?_, fun hbad => ?_⟩
          · by_cases hm : s.headD ' ' = '-' <;> simp [qconvDone, hm]
          · simp only [qnconvTailOk] at hbad
            rw [if_neg hnul, if_neg (not_not_intro hdot), hsf] at hbad
            exact absurd hbad (by simp)
      · -- a bad separator: -2 is returned with 0
        rw [if_pos hdot]
        refine ⟨fun hok => ?_, fun _ => by simp⟩
        simp only [qnconvTailOk] at hok
        rw [if_neg hnul, if_pos hdot] at hok
        exact absurd hok (by simp)

/-- Witness for claim C5: the input `999999` overflows during integer
accumulation, its tail is empty hence well formed, and the conversion
indeed returns the overflow code -6 with the saturated maximum. -/
theorem qnconv_overflow_saturates_witness :
    qnconvbdp (['9', '9', '9', '9', '9', '9']) 10 4 = (-6, DMAX) := by
  have h := (qnconv_overflow_saturates (['9', '9', '9', '9', '9', '9']) 10 4
    (by norm_num) (by norm_num) (by decide)).1 (by decide)
  rw [if_neg (by decide)] at h
  exact h

/-! Stack-bound preservation lemmas for claim C10. -/

/-- Recording an error does not touch the stacks. -/
theorem StackInv_seterr (e : QState) (m : String) (h : StackInv e) :
    StackInv (seterr e m) := by
  simp only [seterr, StackInv] at *
  split_ifs <;> simp_all

/-- A number push keeps the invariant: it refuses exactly when the
stack is full. -/
theorem StackInv_number_push (e : QState) (v : Int) (h : StackInv e) :
    StackInv (number_push e v).1 := by
  simp only [number_push, StackInv] at *
  split_ifs with h1 h2
  · exact h
  · exact StackInv_seterr e _ h
  · simp only [List.length_cons]
    omega

/-- A number pop keeps the invariant. -/
theorem StackInv_number_pop (e : QState) (h : StackInv e) :
    StackInv (number_pop e).1 := by
  simp only [number_pop, StackInv] at *
  split_ifs with h1
  · exact h
  · rcases hn : e.numbers with _ | ⟨n, rest⟩
    · simpa using StackInv_seterr e _ h
    · rw [hn] at h
      simp only [List.length_cons] at h
      simp only [List.length]
      omega

/-- An operator push keeps the invariant. -/
theorem StackInv_op_push (e : QState) (op : Qop) (h : StackInv e) :
    StackInv (op_push e op).1 := by
  simp only [op_push, StackInv] at *
  split_ifs with h1 h2
  · exact h
  · exact StackInv_seterr e _ h
  · simp only [List.length_cons]
    omega

/-- An operator pop keeps the invariant. -/
theorem StackInv_op_pop (e : QState) (h : StackInv e) :
    StackInv (op_pop e).1 := by
  simp only [op_pop, StackInv] at *
  split_ifs with h1
  · exact h
  · rcases hn : e.ops with _ | ⟨o, rest⟩
    · simpa using StackInv_seterr e _ h
    · rw [hn] at h
      simp only [List.length_cons] at h
      simp only [List.length]
      omega

/-- Pop-and-evaluate keeps the invariant. -/
theorem StackInv_op_eval (e : QState) (h : StackInv e) : StackInv (op_eval e).1 := by
  have hpop := StackInv_op_pop e h
  unfold op_eval
  rcases hp : op_pop e with ⟨e1, o⟩
  rw [hp] at hpop
  rcases o with _ | pop
  · exact hpop
  · dsimp only
    have hnum := StackInv_number_pop e1 hpop
    rcases hn : number_pop e1 with ⟨e2, a⟩
    rw [hn] at hnum
    dsimp only
    have hnum2 := StackInv_number_pop e2 hnum
    rcases hn2 : number_pop e2 with ⟨e3, b⟩
    rw [hn2] at hnum2
    dsimp only
    split_ifs <;> (try split) <;> (try split) <;> (try split_ifs) <;>
      first
      | exact hnum
      | exact hnum2
      | exact StackInv_seterr _ _ hnum
      | exact StackInv_seterr _ _ hnum2
      | exact StackInv_number_push _ _ hnum
      | exact StackInv_number_push _ _ hnum2

/-- The pop-and-evaluate loops keep the invariant. -/
theorem StackInv_popEvalWhile (cond : Qop → Bool) (fuel : Nat) :
    ∀ e, StackInv e → StackInv (popEvalWhile cond fuel e) := by
  induction fuel with
  | zero => intro e h; exact h
  | succ fuel ih =>
    intro e h
    unfold popEvalWhile
    split
    · exact h
    · dsimp only
      split_ifs
      · exact StackInv_op_eval e h
      · exact ih _ (StackInv_op_eval e h)
      · exact h

/-- A shunting step keeps the invariant. -/
theorem StackInv_shunt (e : QState) (op : Qop) (h : StackInv e) :
    StackInv (shunt e op).1 := by
  unfold shunt
  split_ifs
  · exact StackInv_op_push e op h
  · have hw := StackInv_popEvalWhile (fun t => ¬(t.name = "(")) (e.ops.length + 1) e h
    have hpop := StackInv_op_pop _ hw
    dsimp only
    split
    · rename_i e1 p heq
      rw [heq] at hpop
      dsimp only at hpop ⊢
      split_ifs
      · exact hpop
      · refine StackInv_seterr _ _ ?_
        simpa [StackInv] using hpop
    · rename_i e1 heq
      rw [heq] at hpop
      dsimp only at hpop ⊢
      refine StackInv_seterr _ _ ?_
      simpa [StackInv] using hpop
  · exact StackInv_op_push _ op
      (StackInv_popEvalWhile (fun t => op.prec < t.prec) (e.ops.length + 1) e h)
  · exact StackInv_op_push _ op
      (StackInv_popEvalWhile (fun t => op.prec ≤ t.prec) (e.ops.length + 1) e h)

/-- The token loop keeps the invariant. -/
theorem StackInv_qexprLoop (fuel : Nat) :
    ∀ e s firstop previous, StackInv e →
      StackInv (qexprLoop fuel e s firstop previous).1 := by
  induction fuel with
  | zero => intro e s firstop previous h; exact h
  | succ fuel ih =>
    intro e s firstop previous h
    unfold qexprLoop
    by_cases herr : e.error ≠ 0
    · rw [if_pos herr]
      exact h
    · rw [if_neg herr]
      split
      · exact h
      · rename_i v rest heq
        dsimp only
        rcases hq : number_push e v with ⟨e1, r⟩
        have hinv := StackInv_number_push e v h
        rw [hq] at hinv
        dsimp only
        exact ih _ _ _ _ hinv
      · rename_i op rest heq
        dsimp only
        split_ifs
        all_goals
          first
          | exact StackInv_seterr _ _ h
          | (rcases hq : shunt e opNegate with ⟨e1, r⟩
             have hinv := StackInv_shunt e opNegate h
             rw [hq] at hinv
             dsimp only
             exact ih _ _ _ _ hinv)
          | (rcases hq : shunt e op with ⟨e1, r⟩
             have hinv := StackInv_shunt e op h
             rw [hq] at hinv
             dsimp only
             exact ih _ _ _ _ hinv)
      · rename_i id heq
        exact StackInv_seterr _ _ h

/-- The final drain loop keeps the invariant. -/
theorem StackInv_drain (fuel : Nat) :
    ∀ e, StackInv e → StackInv (drain fuel e) := by
  induction fuel with
  | zero => intro e h; exact h
  | succ fuel ih =>
    intro e h
    unfold drain
    split
    · exact h
    · dsimp only
      split_ifs
      · exact StackInv_op_eval e h
      · exact ih _ (StackInv_op_eval e h)

/-- A whole `qexpr` evaluation keeps the invariant. -/
theorem StackInv_qexpr (e : QState) (s : List Char) (h : StackInv e) :
    StackInv (qexpr e s).1 := by
  unfold qexpr
  dsimp only
  generalize hE : (if e.inited = true then
    { e with error := 0, errorString := "", ops := [], numbers := [] } else e) = e0
  have hreset : StackInv e0 := by
    rw [← hE]
    split_ifs
    · simp only [StackInv] at h ⊢
      simp
      exact ⟨h.2.2.1, h.2.2.2⟩
    · exact h
  have hloop := StackInv_qexprLoop (s.length + 1) e0 s true none hreset
  split_ifs <;>
    first
    | exact hloop
    | exact StackInv_seterr _ _ (StackInv_drain _ _ hloop)
    | exact StackInv_drain _ _ hloop

/-- A fresh evaluator satisfies the invariant. -/
theorem StackInv_fresh (max : Nat) (vars : List (String × Int)) :
    StackInv (freshState max vars) := by
  simp only [StackInv, freshState]
  split_ifs with hm <;> simp <;> omega

/-- Claim C10: in every evaluator state reachable from a freshly
constructed instance through any sequence of `qexpr` evaluations, the
number and operator counts stay within their capacities (which are at
least 1, as construction guarantees); and in a non-error state a push
on a full stack flags the corresponding stack-overflow error and
leaves the stack contents and count unchanged. -/
theorem qexpr_stack_bounds :
    (∀ e, Reachable e → StackInv e) ∧
    (∀ e v, e.error = 0 → 1 ≤ e.numbersMax → e.numbersMax ≤ e.numbers.length →
      (number_push e v).1.numbers = e.numbers ∧
      (number_push e v).1.error = -1 ∧
      (number_push e v).1.errorString = "number stack overflow" ∧
      (number_push e v).2 = -1) ∧
    (∀ e op, e.error = 0 → 1 ≤ e.opsMax → e.opsMax ≤ e.ops.length →
      (op_push e op).1.ops = e.ops ∧
      (op_push e op).1.error = -1 ∧
      (op_push e op).1.errorString = "operator stack overflow" ∧
      (op_push e op).2 = -1) := by
  refine ⟨?_, ?_, ?_⟩
  · intro e hr
    induction hr with
    | fresh max vars => exact StackInv_fresh max vars
    | step e s _ ih => exact StackInv_qexpr e s ih
  · intro e v h0 h1 h2
    have hfull : e.numbersMax - 1 < e.numbers.length := by omega
    simp [number_push, seterr, h0, hfull]
  · intro e op h0 h1 h2
    have hfull : e.opsMax - 1 < e.ops.length := by omega
    simp [op_push, seterr, h0, hfull]

/-- Witness for claim C10: a fresh capacity-1 evaluator satisfies the
bounds, and pushing onto its full number stack (after one successful
push) flags the overflow and keeps the stack. -/
theorem qexpr_stack_bounds_witness :
    StackInv (freshState 1 []) ∧
    ((number_push ((number_push (freshState 1 []) 7).1) 8).1.numbers =
        (number_push (freshState 1 []) 7).1.numbers ∧
      (number_push ((number_push (freshState 1 []) 7).1) 8).1.error = -1 ∧
      (number_push ((number_push (freshState 1 []) 7).1) 8).1.errorString =
        "number stack overflow" ∧
      (number_push ((number_push (freshState 1 []) 7).1) 8).2 = -1) :=
  ⟨qexpr_stack_bounds.1 (freshState 1 []) (Reachable.fresh 1 []),
   qexpr_stack_bounds.2.1 ((number_push (freshState 1 []) 7).1) 8
     (by decide) (by decide) (by decide)⟩

/-! Division helpers for claim C3. -/

/-- Values in range pass through `qsat` unchanged. -/
theorem qsat_eq_self (s : Int) (h1 : DMIN ≤ s) (h2 : s ≤ DMAX) : qsat s = s := by
  simp only [qsat, DMIN, DMAX] at *
  rw [if_neg (by omega)]

/-- Values below the range saturate to the minimum. -/
theorem qsat_of_lt_min (s : Int) (h : s < DMIN) : qsat s = DMIN := by
  simp only [qsat, qbound_saturate, DMIN, DMAX] at *
  rw [if_pos (by omega), if_neg (by omega)]

/-- Values above the range saturate to the maximum. -/
theorem qsat_of_max_lt (s : Int) (h : DMAX < s) : qsat s = DMAX := by
  simp only [qsat, qbound_saturate, DMIN, DMAX] at *
  rw [if_pos (by omega), if_pos (by omega)]

/-- The sign-bit test is false on in-range non-negative values. -/
theorem qisnegativeB_false (q : Int) (h0 : 0 ≤ q) (h2 : q ≤ DMAX) :
    qisnegativeB q = false := by
  simp only [qisnegativeB, qhigh, toU32, DMAX, decide_eq_false_iff_not] at *
  omega

/-- The sign-bit test is true on in-range negative values. -/
theorem qisnegativeB_true (q : Int) (h1 : DMIN ≤ q) (h0 : q < 0) :
    qisnegativeB q = true := by
  simp only [qisnegativeB, qhigh, toU32, DMIN, decide_eq_true_eq] at *
  omega

/-- On in-range non-negative values truncation is the flooring of the
low 16 bits. -/
theorem qtrunc_char_nonneg (q : Int) (h0 : 0 ≤ q) (h2 : q ≤ DMAX) :
    qtrunc q = 65536 * (q / 65536) := by
  have hneg := qisnegativeB_false q h0 h2
  simp only [qtrunc, hneg, Bool.false_and, if_false, qadd, qsat, qbound_saturate,
    DMIN, DMAX] at *
  split_ifs <;> first | omega | (exfalso; simp_all)

/-- On in-range non-positive values truncation rounds the magnitude
down (toward zero). -/
theorem qtrunc_char_nonpos (q : Int) (h1 : DMIN ≤ q) (h0 : q ≤ 0) :
    qtrunc q = -(65536 * ((-q) / 65536)) := by
  by_cases hq0 : q = 0
  · subst hq0
    decide
  · have hneg := qisnegativeB_true q h1 (by omega)
    simp only [qtrunc, hneg, Bool.true_and, qlow, toU32, qadd, qsat, qbound_saturate,
      DMIN, DMAX] at *
    split_ifs at * <;> simp_all <;> omega

/-- Flooring clears the low 16 bits. -/
theorem qfloor_char (q : Int) : qfloor q = 65536 * (q / 65536) := by
  simp only [qfloor]
  omega

/-- Multiplying an integral Q value is exact inside `multiply`. -/
theorem multiply_qint (k b : Int) : multiply (65536 * k) b = k * b := by
  simp only [multiply]
  have h : 65536 * k * b = 65536 * (k * b) := by ring
  rw [h]
  omega

/-- Window of the biased flooring division: dividing
`u * 65536 + bias` by `v` lands in the 65536-cell of `u / v` as long as
the bias stays below one cell. -/
theorem biasedDiv_window (u v β : Int) (hu : 0 ≤ u) (hv : 0 < v)
    (hβ0 : 0 ≤ β) (hβ : β ≤ 65535) :
    65536 * (u / v) ≤ (u * 65536 + β) / v ∧
    (u * 65536 + β) / v ≤ 65536 * (u / v) + 65535 := by
  have hid := Int.ediv_add_emod u v
  have hr0 := Int.emod_nonneg u (ne_of_gt hv)
  have hrv := Int.emod_lt_of_pos u hv
  constructor
  · rw [Int.le_ediv_iff_mul_le hv]
    nlinarith [hid, hr0, hβ0]
  · suffices hlt : (u * 65536 + β) / v < 65536 * (u / v) + 65536 by omega
    rw [Int.ediv_lt_iff_lt_mul hv]
    nlinarith [hid, hrv, hβ]

/-- Ceiling window of the biased flooring division: with a bias below
the divisor and a divisor of at most one cell above the bias, the
quotient lands in the 65536-cell below the ceiling of `u / v`
(computed as `(u + v - 1) / v`). -/
theorem biasedDiv_ceil_window (u v β : Int) (hu : 0 ≤ u) (hv : 0 < v)
    (hβ0 : 0 ≤ β) (hβv : β < v) (hvβ : v ≤ 65536 + β) :
    65536 * ((u + v - 1) / v) - 65535 ≤ (u * 65536 + β) / v ∧
    (u * 65536 + β) / v ≤ 65536 * ((u + v - 1) / v) := by
  have hid := Int.ediv_add_emod (u + v - 1) v
  have hr0 := Int.emod_nonneg (u + v - 1) (ne_of_gt hv)
  have hrv := Int.emod_lt_of_pos (u + v - 1) hv
  constructor
  · rw [Int.le_ediv_iff_mul_le hv]
    nlinarith [hid, hrv, hvβ]
  · suffices hlt : (u * 65536 + β) / v < 65536 * ((u + v - 1) / v) + 1 by omega
    rw [Int.ediv_lt_iff_lt_mul hv]
    nlinarith [hid, hr0, hβv]

/-- Zero is inside the representable range (upper side). -/
theorem dmin_nonpos : DMIN ≤ 0 := by decide

/-- Zero is inside the representable range (lower side). -/
theorem dmax_nonneg : (0 : Int) ≤ DMAX := by decide

/-- The non-negative-dividend, positive-divisor case of claim C3:
`qrem` and `qmod` both compute the proper remainder `a % b`. -/
theorem qrem_qmod_caseA (a b : Int) (ha0 : 0 ≤ a) (ha2 : a ≤ DMAX)
    (hb : 0 < b) (hbs : b ≤ 131070)
    (hno1 : DMIN ≤ qdivRaw a b) (hno2 : qdivRaw a b ≤ DMAX) :
    qrem a b = a % b ∧ qmod a b = a % b := by
  have hraw : qdivRaw a b = (a * 65536 + b / 2) / b := by
    simp only [qdivRaw, divn, pow_one]
    rw [if_neg (not_not_intro (Or.inl ⟨by omega, hb⟩))]
    exact Int.tdiv_eq_ediv (by omega) (le_of_lt hb)
  obtain ⟨hw1, hw2⟩ := biasedDiv_window a b (b / 2) ha0 hb (by omega) (by omega)
  rw [hraw] at hno1 hno2
  have hid := Int.ediv_add_emod a b
  have hr0 := Int.emod_nonneg a (ne_of_gt hb)
  have hrb := Int.emod_lt_of_pos a hb
  have hk0 : 0 ≤ a / b := Int.ediv_nonneg ha0 (le_of_lt hb)
  have hqdiv : qdiv a b = (a * 65536 + b / 2) / b := by
    rw [qdiv, hraw]
    exact wrap32_eq_self _ hno1 hno2
  have hP0 : 0 ≤ (a * 65536 + b / 2) / b := le_trans (by omega) hw1
  have hPk : ((a * 65536 + b / 2) / b) / 65536 = a / b := by
    generalize hgP : (a * 65536 + b / 2) / b = P at hw1 hw2
    generalize hgk : a / b = k at hw1 hw2
    omega
  have htr : qtrunc ((a * 65536 + b / 2) / b) = 65536 * (a / b) := by
    rw [qtrunc_char_nonneg _ hP0 hno2, hPk]
  have hfl : qfloor ((a * 65536 + b / 2) / b) = 65536 * (a / b) := by
    rw [qfloor_char, hPk]
  have hkb1 : 0 ≤ (a / b) * b := mul_nonneg hk0 (le_of_lt hb)
  have hkb2 : (a / b) * b ≤ a := by nlinarith [hid, hr0]
  have hmul : qsat (multiply (65536 * (a / b)) b) = (a / b) * b := by
    rw [multiply_qint]
    exact qsat_eq_self _ (le_trans dmin_nonpos hkb1) (le_trans hkb2 ha2)
  have hsub : a - (a / b) * b = a % b := by linarith [hid]
  constructor
  · rw [qrem, hqdiv, htr, qmul, hmul, qsub, hsub]
    exact qsat_eq_self _ (le_trans dmin_nonpos hr0)
      (le_trans (le_of_lt hrb) (by simp only [DMAX]; omega))
  · rw [qmod, hqdiv, hfl, qmul, hmul, qsub, hsub]
    exact qsat_eq_self _ (le_trans dmin_nonpos hr0)
      (le_trans (le_of_lt hrb) (by simp only [DMAX]; omega))


/-- The negative-dividend, positive-divisor case of claim C3: `qrem` is the
truncated remainder `-((-a) % b)` (non-positive), while `qmod` lands in
`[0, b)` -- possibly via saturation of the intermediate product. -/
theorem qrem_qmod_caseB (a b : Int) (ha0 : a < 0) (ha1 : DMIN ≤ a)
    (hb : 0 < b) (hbs : b ≤ 131070)
    (hno1 : DMIN ≤ qdivRaw a b) (hno2 : qdivRaw a b ≤ DMAX) :
    qrem a b = -((-a) % b) ∧ (0 ≤ qmod a b ∧ qmod a b < b) := by
  have hraw : qdivRaw a b = -(((-a) * 65536 + b / 2) / b) := by
    simp only [qdivRaw, divn, pow_one]
    rw [if_pos (by omega)]
    have hnum : a * 65536 + -(b / 2) = -((-a) * 65536 + b / 2) := by ring
    rw [hnum, Int.neg_tdiv, Int.tdiv_eq_ediv (by omega) (le_of_lt hb)]
  obtain ⟨hw1, hw2⟩ := biasedDiv_window (-a) b (b / 2) (by omega) hb (by omega) (by omega)
  obtain ⟨hc1, hc2⟩ := biasedDiv_ceil_window (-a) b (b / 2) (by omega) hb (by omega)
    (by omega) (by omega)
  rw [hraw] at hno1 hno2
  have hid := Int.ediv_add_emod (-a) b
  have hr0 := Int.emod_nonneg (-a) (ne_of_gt hb)
  have hrb := Int.emod_lt_of_pos (-a) hb
  have hk0 : 0 ≤ (-a) / b := Int.ediv_nonneg (by omega) (le_of_lt hb)
  have hkb1 : 0 ≤ ((-a) / b) * b := mul_nonneg hk0 (le_of_lt hb)
  have hkb2 : ((-a) / b) * b ≤ -a := by linarith
  have hqdiv : qdiv a b = -(((-a) * 65536 + b / 2) / b) := by
    rw [qdiv, hraw]
    exact wrap32_eq_self _ hno1 hno2
  have hPk : (0 < (-a) % b ∧
      (-(((-a) * 65536 + b / 2) / b)) / 65536 = -((-a) / b + 1)) ∨
      ((-a) % b = 0 ∧
      (-(((-a) * 65536 + b / 2) / b)) / 65536 = -((-a) / b)) := by
    rcases eq_or_lt_of_le hr0 with h0 | h0
    · right
      refine ⟨h0.symm, ?_⟩
      have hrc : ((-a) + b - 1) / b = (-a) / b := by
        have he : -a + b - 1 = (b - 1) + ((-a) / b) * b := by linarith
        rw [he, Int.add_mul_ediv_right _ _ (ne_of_gt hb),
          Int.ediv_eq_zero_of_lt (by omega) (by omega), zero_add]
      rw [hrc] at hc1 hc2
      generalize hgP : ((-a) * 65536 + b / 2) / b = P at hw1 hw2 hc1 hc2
      generalize hgk : (-a) / b = k at hw1 hw2 hc1 hc2
      omega
    · left
      refine ⟨h0, ?_⟩
      have hrc : ((-a) + b - 1) / b = (-a) / b + 1 := by
        have he : -a + b - 1 = ((-a) % b - 1) + ((-a) / b + 1) * b := by linarith
        rw [he, Int.add_mul_ediv_right _ _ (ne_of_gt hb),
          Int.ediv_eq_zero_of_lt (by omega) (by omega), zero_add]
      rw [hrc] at hc1 hc2
      generalize hgP : ((-a) * 65536 + b / 2) / b = P at hw1 hw2 hc1 hc2
      generalize hgk : (-a) / b = k at hw1 hw2 hc1 hc2
      omega
  have hP0 : 0 ≤ ((-a) * 65536 + b / 2) / b :=
    le_trans (by nlinarith [hk0]) hw1
  have htr : qtrunc (-(((-a) * 65536 + b / 2) / b)) = -(65536 * ((-a) / b)) := by
    rw [qtrunc_char_nonpos _ hno1 (by omega), neg_neg]
    congr 1
    generalize hgP : ((-a) * 65536 + b / 2) / b = P at hw1 hw2
    generalize hgk : (-a) / b = k at hw1 hw2
    omega
  have hmulr : qsat (multiply (-(65536 * ((-a) / b))) b) = -(((-a) / b) * b) := by
    have hx : -(65536 * ((-a) / b)) = 65536 * (-((-a) / b)) := by ring
    rw [hx, multiply_qint]
    have hy : -((-a) / b) * b = -(((-a) / b) * b) := by ring
    rw [hy]
    refine qsat_eq_self _ ?_ (le_trans (by linarith) dmax_nonneg)
    simp only [DMIN] at ha1 ⊢
    linarith
  have hremv : qrem a b = -((-a) % b) := by
    rw [qrem, hqdiv, htr, qmul, hmulr, qsub]
    have hs : a - -(((-a) / b) * b) = -((-a) % b) := by linarith
    rw [hs]
    refine qsat_eq_self _ ?_ (le_trans (by linarith) dmax_nonneg)
    simp only [DMIN]
    linarith
  refine ⟨hremv, ?_⟩
  rcases hPk with ⟨hrpos, hPk⟩ | ⟨hz, hPk⟩
  · -- proper negative quotient: floor rounds down to -(k+1)
    have hfl : qfloor (-(((-a) * 65536 + b / 2) / b)) =
        65536 * (-((-a) / b + 1)) := by
      rw [qfloor_char, hPk]
    have hub : ((-a) / b + 1) * b ≤ (-a) + b - 1 := by linarith
    by_cases hsat : -(((-a) / b + 1) * b) < DMIN
    · -- the product saturates to DMIN; qmod = a - DMIN which is still in [0, b)
      have hmulf : qsat (multiply (65536 * (-((-a) / b + 1))) b) = DMIN := by
        rw [multiply_qint]
        have hy : -((-a) / b + 1) * b = -(((-a) / b + 1) * b) := by ring
        rw [hy]
        exact qsat_of_lt_min _ hsat
      rw [qmod, hqdiv, hfl, qmul, hmulf, qsub]
      have hgt : (2 : Int) ^ 31 < ((-a) / b + 1) * b := by
        simp only [DMIN] at hsat
        linarith
      have hin : 0 ≤ a - DMIN ∧ a - DMIN < b := by
        constructor
        · simp only [DMIN] at ha1 ⊢; linarith
        · simp only [DMIN] at *; linarith
      rw [qsat_eq_self _ (le_trans dmin_nonpos hin.1)
        (le_trans (le_of_lt hin.2) (by simp only [DMAX]; omega))]
      exact hin
    · -- no saturation; qmod = a + (k+1)*b = b - ((-a) % b)
      push_neg at hsat
      have hmulf : qsat (multiply (65536 * (-((-a) / b + 1))) b) =
          -(((-a) / b + 1) * b) := by
        rw [multiply_qint]
        have hy : -((-a) / b + 1) * b = -(((-a) / b + 1) * b) := by ring
        rw [hy]
        exact qsat_eq_self _ hsat (le_trans (by linarith) dmax_nonneg)
      rw [qmod, hqdiv, hfl, qmul, hmulf, qsub]
      have hs : a - -(((-a) / b + 1) * b) = b - ((-a) % b) := by linarith
      rw [hs]
      have hin : 0 ≤ b - ((-a) % b) ∧ b - ((-a) % b) < b := ⟨by linarith, by linarith⟩
      rw [qsat_eq_self _ (le_trans dmin_nonpos hin.1)
        (le_trans (le_of_lt hin.2) (by simp only [DMAX]; omega))]
      exact hin
  · -- a is an exact multiple of b: qmod = 0
    have hfl : qfloor (-(((-a) * 65536 + b / 2) / b)) =
        65536 * (-((-a) / b)) := by
      rw [qfloor_char, hPk]
    rw [qmod, hqdiv, hfl, qmul]
    have hx2 : (65536 : Int) * -((-a) / b) = -(65536 * ((-a) / b)) := by ring
    rw [hx2, hmulr, qsub]
    have hs : a - -(((-a) / b) * b) = -((-a) % b) := by linarith
    rw [hs, hz, neg_zero, qsat_eq_self _ dmin_nonpos dmax_nonneg]
    exact ⟨le_refl 0, hb⟩

/-- The non-negative-dividend, negative-divisor case of claim C3: `qrem` is the
proper remainder by `-b` (non-negative), and for `b ≤ -2` `qmod` lands in
`(b, 0]` -- possibly via saturation of the intermediate product. -/
theorem qrem_qmod_caseC (a b : Int) (ha0 : 0 ≤ a) (ha2 : a ≤ DMAX)
    (hb : b < 0) (hbs : -131070 ≤ b)
    (hno1 : DMIN ≤ qdivRaw a b) (hno2 : qdivRaw a b ≤ DMAX) :
    qrem a b = a % (-b) ∧ (b ≤ -2 → b < qmod a b ∧ qmod a b ≤ 0) := by
  have hv : 0 < -b := by omega
  have htd : ∀ x : Int, x.tdiv b = -(x.tdiv (-b)) := by
    intro x
    have h1 := Int.tdiv_neg x (-b)
    rw [neg_neg] at h1
    exact h1
  have hraw : qdivRaw a b = -((a * 65536 + -(b / 2)) / (-b)) := by
    simp only [qdivRaw, divn, pow_one]
    rw [if_pos (by omega)]
    rw [htd, Int.tdiv_eq_ediv (by omega) (by omega)]
  obtain ⟨hw1, hw2⟩ := biasedDiv_window a (-b) (-(b / 2)) ha0 hv (by omega) (by omega)
  rw [hraw] at hno1 hno2
  have hid := Int.ediv_add_emod a (-b)
  have hr0 := Int.emod_nonneg a (ne_of_gt hv)
  have hrb := Int.emod_lt_of_pos a hv
  have hk0 : 0 ≤ a / (-b) := Int.ediv_nonneg ha0 (le_of_lt hv)
  have hkb1 : 0 ≤ (a / (-b)) * (-b) := mul_nonneg hk0 (le_of_lt hv)
  have hkb2 : (a / (-b)) * (-b) ≤ a := by linarith
  have hqdiv : qdiv a b = -((a * 65536 + -(b / 2)) / (-b)) := by
    rw [qdiv, hraw]
    exact wrap32_eq_self _ hno1 hno2
  have hP0 : 0 ≤ (a * 65536 + -(b / 2)) / (-b) :=
    le_trans (by nlinarith [hk0]) hw1
  have htr : qtrunc (-((a * 65536 + -(b / 2)) / (-b))) =
      -(65536 * (a / (-b))) := by
    rw [qtrunc_char_nonpos _ hno1 (by omega), neg_neg]
    congr 1
    generalize hgP : (a * 65536 + -(b / 2)) / (-b) = P at hw1 hw2
    generalize hgk : a / (-b) = k at hw1 hw2
    omega
  have hmulr : qsat (multiply (-(65536 * (a / (-b)))) b) = (a / (-b)) * (-b) := by
    have hx1 : -(65536 * (a / (-b))) = 65536 * (-(a / (-b))) := by ring
    rw [hx1, multiply_qint]
    have hy : -(a / (-b)) * b = (a / (-b)) * (-b) := by ring
    rw [hy]
    exact qsat_eq_self _ (le_trans dmin_nonpos hkb1) (le_trans hkb2 ha2)
  have hremv : qrem a b = a % (-b) := by
    rw [qrem, hqdiv, htr, qmul, hmulr, qsub]
    have hs : a - (a / (-b)) * (-b) = a % (-b) := by linarith
    rw [hs]
    exact qsat_eq_self _ (le_trans dmin_nonpos hr0)
      (le_trans (le_of_lt hrb) (by simp only [DMAX]; omega))
  refine ⟨hremv, fun hb2 => ?_⟩
  obtain ⟨hc1, hc2⟩ := biasedDiv_ceil_window a (-b) (-(b / 2)) ha0 hv (by omega)
    (by omega) (by omega)
  have hcid := Int.ediv_add_emod (a + -b - 1) (-b)
  have hcr0 := Int.emod_nonneg (a + -b - 1) (ne_of_gt hv)
  have hcrb := Int.emod_lt_of_pos (a + -b - 1) hv
  have hc0 : 0 ≤ (a + -b - 1) / (-b) := Int.ediv_nonneg (by omega) (le_of_lt hv)
  have hcb_lb : a ≤ ((a + -b - 1) / (-b)) * (-b) := by linarith
  have hcb_ub : ((a + -b - 1) / (-b)) * (-b) ≤ a + -b - 1 := by linarith
  have hPc : (-((a * 65536 + -(b / 2)) / (-b))) / 65536 = -((a + -b - 1) / (-b)) := by
    generalize hgP : (a * 65536 + -(b / 2)) / (-b) = P at hc1 hc2
    generalize hgc : (a + -b - 1) / (-b) = c at hc1 hc2
    omega
  have hfl : qfloor (-((a * 65536 + -(b / 2)) / (-b))) =
      65536 * (-((a + -b - 1) / (-b))) := by
    rw [qfloor_char, hPc]
  by_cases hsat : DMAX < ((a + -b - 1) / (-b)) * (-b)
  · -- the product saturates to DMAX; qmod = a - DMAX which is still in (b, 0]
    have hmulf : qsat (multiply (65536 * (-((a + -b - 1) / (-b)))) b) = DMAX := by
      rw [multiply_qint]
      have hy : -((a + -b - 1) / (-b)) * b = ((a + -b - 1) / (-b)) * (-b) := by ring
      rw [hy]
      exact qsat_of_max_lt _ hsat
    rw [qmod, hqdiv, hfl, qmul, hmulf, qsub]
    have hin : b < a - DMAX ∧ a - DMAX ≤ 0 := ⟨by linarith, by linarith⟩
    rw [qsat_eq_self _ (by simp only [DMIN, DMAX] at *; linarith)
      (le_trans hin.2 dmax_nonneg)]
    exact hin
  · -- no saturation; qmod = a - c * (-b) ∈ (b, 0]
    push_neg at hsat
    have hmulf : qsat (multiply (65536 * (-((a + -b - 1) / (-b)))) b) =
        ((a + -b - 1) / (-b)) * (-b) := by
      rw [multiply_qint]
      have hy : -((a + -b - 1) / (-b)) * b = ((a + -b - 1) / (-b)) * (-b) := by ring
      rw [hy]
      exact qsat_eq_self _ (le_trans dmin_nonpos (mul_nonneg hc0 (le_of_lt hv))) hsat
    rw [qmod, hqdiv, hfl, qmul, hmulf, qsub]
    have hin : b < a - ((a + -b - 1) / (-b)) * (-b) ∧
        a - ((a + -b - 1) / (-b)) * (-b) ≤ 0 := ⟨by linarith, by linarith⟩
    rw [qsat_eq_self _ (by simp only [DMIN] at *; linarith)
      (le_trans hin.2 dmax_nonneg)]
    exact hin

/-- The negative-dividend, negative-divisor case of claim C3: the biased
quotient is exact in the floor cell, so `qrem` and `qmod` agree and equal
`-((-a) % (-b))`, which is non-positive with magnitude below `|b|`. -/
theorem qrem_qmod_caseD (a b : Int) (ha0 : a < 0) (ha1 : DMIN ≤ a)
    (hb : b < 0) (hbs : -131070 ≤ b)
    (hno1 : DMIN ≤ qdivRaw a b) (hno2 : qdivRaw a b ≤ DMAX) :
    qrem a b = -((-a) % (-b)) ∧ qmod a b = -((-a) % (-b)) := by
  have hv : 0 < -b := by omega
  have hraw : qdivRaw a b = ((-a) * 65536 + -(b / 2)) / (-b) := by
    simp only [qdivRaw, divn, pow_one]
    rw [if_neg (not_not_intro (Or.inr ⟨by omega, hb⟩))]
    have hnum : a * 65536 + b / 2 = -((-a) * 65536 + -(b / 2)) := by ring
    rw [hnum, Int.neg_tdiv]
    have h1 := Int.tdiv_neg ((-a) * 65536 + -(b / 2)) (-b)
    rw [neg_neg] at h1
    rw [h1, neg_neg, Int.tdiv_eq_ediv (by omega) (by omega)]
  obtain ⟨hw1, hw2⟩ := biasedDiv_window (-a) (-b) (-(b / 2)) (by omega) hv
    (by omega) (by omega)
  rw [hraw] at hno1 hno2
  have hid := Int.ediv_add_emod (-a) (-b)
  have hr0 := Int.emod_nonneg (-a) (ne_of_gt hv)
  have hrb := Int.emod_lt_of_pos (-a) hv
  have hk0 : 0 ≤ (-a) / (-b) := Int.ediv_nonneg (by omega) (le_of_lt hv)
  have hkb1 : 0 ≤ ((-a) / (-b)) * (-b) := mul_nonneg hk0 (le_of_lt hv)
  have hkb2 : ((-a) / (-b)) * (-b) ≤ -a := by linarith
  have hqdiv : qdiv a b = ((-a) * 65536 + -(b / 2)) / (-b) := by
    rw [qdiv, hraw]
    exact wrap32_eq_self _ hno1 hno2
  have hP0 : 0 ≤ ((-a) * 65536 + -(b / 2)) / (-b) :=
    le_trans (by nlinarith [hk0]) hw1
  have hPk : (((-a) * 65536 + -(b / 2)) / (-b)) / 65536 = (-a) / (-b) := by
    generalize hgP : ((-a) * 65536 + -(b / 2)) / (-b) = P at hw1 hw2
    generalize hgk : (-a) / (-b) = k at hw1 hw2
    omega
  have htr : qtrunc (((-a) * 65536 + -(b / 2)) / (-b)) =
      65536 * ((-a) / (-b)) := by
    rw [qtrunc_char_nonneg _ hP0 hno2, hPk]
  have hfl : qfloor (((-a) * 65536 + -(b / 2)) / (-b)) =
      65536 * ((-a) / (-b)) := by
    rw [qfloor_char, hPk]
  have hmul : qsat (multiply (65536 * ((-a) / (-b))) b) =
      -(((-a) / (-b)) * (-b)) := by
    rw [multiply_qint]
    have hy : ((-a) / (-b)) * b = -(((-a) / (-b)) * (-b)) := by ring
    rw [hy]
    refine qsat_eq_self _ ?_ (le_trans (by linarith) dmax_nonneg)
    simp only [DMIN] at ha1 ⊢
    linarith
  have hs : a - -(((-a) / (-b)) * (-b)) = -((-a) % (-b)) := by linarith
  have hrng : qsat (-((-a) % (-b))) = -((-a) % (-b)) := by
    refine qsat_eq_self _ ?_ (le_trans (by linarith) dmax_nonneg)
    simp only [DMIN]
    linarith
  constructor
  · rw [qrem, hqdiv, htr, qmul, hmul, qsub, hs, hrng]
  · rw [qmod, hqdiv, hfl, qmul, hmul, qsub, hs, hrng]

/-- C3: the spec's sign and magnitude properties of `qrem`/`qmod` are false as
stated for every nonzero divisor: at `a = QINT(2)`, `b = QINT(2) + 1 ulp` the
biased quotient rounds up across the integer boundary, making `qrem` negative
despite `a > 0` and `qmod` negative despite `b > 0`; and at `b = -1 ulp` the
magnitude bound fails for `qmod` (`|qmod(1, -1)| = |-1| = |b|`).  In all three
cases the intermediate 64-bit quotient is comfortably in range, so the spec's
own overflow caveat does not excuse them. -/
theorem qrem_qmod_claim_false :
    (qrem 131072 131073 = -1 ∧
     DMIN ≤ qdivRaw 131072 131073 ∧ qdivRaw 131072 131073 ≤ DMAX) ∧
    (qmod 131072 131073 = -1) ∧
    (qmod 1 (-1) = -1 ∧ (qmod 1 (-1)).natAbs = ((-1 : Int)).natAbs ∧
     DMIN ≤ qdivRaw 1 (-1) ∧ qdivRaw 1 (-1) ≤ DMAX) := by
  decide

/-- C3 (amended): for every in-range `a` and nonzero `b` with `|b| ≤ 131070`
(`QINT(2)` minus 2 ulps) such that the biased intermediate quotient does not
overflow, `qrem(a,b)` is zero or has the sign of `a` and `|qrem(a,b)| < |b|`;
and provided additionally `b ≠ -1` ulp, `qmod(a,b)` is zero or has the sign
of `b` and `|qmod(a,b)| < |b|`. -/
theorem qrem_qmod_props (a b : Int) (ha1 : DMIN ≤ a) (ha2 : a ≤ DMAX)
    (hb : b ≠ 0) (hbs : b.natAbs ≤ 131070)
    (hno1 : DMIN ≤ qdivRaw a b) (hno2 : qdivRaw a b ≤ DMAX) :
    ((0 ≤ a → 0 ≤ qrem a b) ∧ (a ≤ 0 → qrem a b ≤ 0) ∧
      (qrem a b).natAbs < b.natAbs) ∧
    (b ≠ -1 →
      (0 < b → 0 ≤ qmod a b) ∧ (b < 0 → qmod a b ≤ 0) ∧
      (qmod a b).natAbs < b.natAbs) := by
  rcases lt_trichotomy b 0 with hbneg | hbz | hbpos
  · rcases lt_or_le a 0 with haneg | hapos
    · -- a < 0, b < 0
      obtain ⟨hrem, hmod⟩ := qrem_qmod_caseD a b haneg ha1 hbneg (by omega) hno1 hno2
      have h1 : 0 ≤ (-a) % (-b) := Int.emod_nonneg _ (by omega)
      have h2 : (-a) % (-b) < -b := Int.emod_lt_of_pos _ (by omega)
      generalize hgr : (-a) % (-b) = r at hrem hmod h1 h2
      refine ⟨⟨fun h => absurd h (by omega), fun _ => by rw [hrem]; omega,
        by rw [hrem]; omega⟩,
        fun _ => ⟨fun h => absurd h (by omega), fun _ => by rw [hmod]; omega,
        by rw [hmod]; omega⟩⟩
    · -- 0 ≤ a, b < 0
      obtain ⟨hrem, hmodc⟩ := qrem_qmod_caseC a b hapos ha2 hbneg (by omega) hno1 hno2
      have h1 : 0 ≤ a % (-b) := Int.emod_nonneg _ (by omega)
      have h2 : a % (-b) < -b := Int.emod_lt_of_pos _ (by omega)
      generalize hgr : a % (-b) = r at hrem h1 h2
      refine ⟨⟨fun _ => by rw [hrem]; omega, fun h => ?_, by rw [hrem]; omega⟩,
        fun hbne => ?_⟩
      · have ha0 : a = 0 := le_antisymm h hapos
        subst ha0
        rw [Int.zero_emod] at hgr
        rw [hrem]
        omega
      · obtain ⟨hm1, hm2⟩ := hmodc (by omega)
        generalize hgm : qmod a b = M at hm1 hm2
        exact ⟨fun h => absurd h (by omega), fun _ => by omega, by omega⟩
  · exact absurd hbz hb
  · rcases lt_or_le a 0 with haneg | hapos
    · -- a < 0, 0 < b
      obtain ⟨hrem, hmod⟩ := qrem_qmod_caseB a b haneg ha1 hbpos (by omega) hno1 hno2
      have h1 : 0 ≤ (-a) % b := Int.emod_nonneg _ (by omega)
      have h2 : (-a) % b < b := Int.emod_lt_of_pos _ hbpos
      generalize hgr : (-a) % b = r at hrem h1 h2
      generalize hgm : qmod a b = M at hmod
      refine ⟨⟨fun h => absurd h (by omega), fun _ => by rw [hrem]; omega,
        by rw [hrem]; omega⟩,
        fun _ => ⟨fun _ => by omega, fun h => absurd h (by omega),
        by omega⟩⟩
    · -- 0 ≤ a, 0 < b
      obtain ⟨hrem, hmod⟩ := qrem_qmod_caseA a b hapos ha2 hbpos (by omega) hno1 hno2
      have h1 : 0 ≤ a % b := Int.emod_nonneg _ (by omega)
      have h2 : a % b < b := Int.emod_lt_of_pos _ hbpos
      generalize hgr : a % b = r at hrem hmod h1 h2
      refine ⟨⟨fun _ => by rw [hrem]; omega, fun h => ?_, by rw [hrem]; omega⟩,
        fun _ => ⟨fun _ => by rw [hmod]; omega, fun h => absurd h (by omega),
        by rw [hmod]; omega⟩⟩
      have ha0 : a = 0 := le_antisymm h hapos
      subst ha0
      rw [Int.zero_emod] at hgr
      rw [hrem]
      omega

/-- Witness for the amended C3 theorem at the concrete pair `a = 300000`,
`b = 7`, with every hypothesis discharged by evaluation. -/
theorem qrem_qmod_props_witness :
    ((0 ≤ (300000 : Int) → 0 ≤ qrem 300000 65536) ∧
      ((300000 : Int) ≤ 0 → qrem 300000 65536 ≤ 0) ∧
      (qrem 300000 65536).natAbs < ((65536 : Int)).natAbs) ∧
    ((65536 : Int) ≠ -1 →
      (0 < (65536 : Int) → 0 ≤ qmod 300000 65536) ∧
      ((65536 : Int) < 0 → qmod 300000 65536 ≤ 0) ∧
      (qmod 300000 65536).natAbs < ((65536 : Int)).natAbs) :=
  qrem_qmod_props 300000 65536 (by decide) (by decide) (by decide) (by decide)
    (by decide) (by decide)
